import Mathlib

/-!
Verification of the crawl scheduler and frontier-management logic of the
`toronto_streetview_crawler` repository (`crawl.py`), as a shallow embedding.

The SQLite table `panoramas(id PRIMARY KEY, lat, lon, metadata_populated,
within_boundary, neighbors_expanded, created_at, updated_at)` is modelled as a
`List Row`.  External collaborators (shapely point-in-polygon, the streetlevel
lookup service) are parameters: a containment predicate `contains`, a
by-identifier lookup `findById` (raising modelled as `Except.error`), and a
by-coordinate lookup `find`.  Coordinates are modelled as `Option Int`
(nullable REAL columns; the collaborator may omit a value), timestamps as
`Nat` (the ISO-8601 TEXT timestamps written by the code compare by SQLite's
binary collation, which on these strings agrees with chronological order).
-/

namespace Crawler

/-- One row of the `panoramas` table (schema created in `init_db`,
crawl.py lines 38-49).  `within_boundary` is a nullable INTEGER written only
as 0 or 1, hence `Option Bool`; `metadata_populated` and `neighbors_expanded`
default to 0 and are written only as 0/1, hence `Bool`. -/
structure Row where
  id : String
  lat : Option Int
  lon : Option Int
  metadata_populated : Bool
  within_boundary : Option Bool
  neighbors_expanded : Bool
  created_at : Nat
  updated_at : Nat
deriving DecidableEq

/-- A neighbor record exposed by a fetched panorama (`panorama.neighbors`,
crawl.py line 173): identifier plus coordinates as supplied by the external
service. -/
structure Neighbor where
  id : String
  lat : Option Int
  lon : Option Int
deriving DecidableEq

/-- A panorama record returned by the external lookup service
(`find_panorama` / `find_panorama_by_id`).  Besides `id`, `lat`, `lon` and the
neighbor list, the code reads further attributes with `getattr(...,  None)`
(crawl.py lines 119-143); a representative sample of those optional
attributes is carried here so that their (non-)use can be stated. -/
structure Panorama where
  id : String
  lat : Int
  lon : Int
  neighbors : List Neighbor
  date : Option String
  heading : Option Int
  address : Option String
  copyright_message : Option String
deriving DecidableEq

/-- Geometry Gate: `Point(lon, lat)` followed by `point.within(boundary)`
(crawl.py lines 174-175, 346, 400-401).  `contains` abstracts the external
point-in-polygon test on a fully specified point.  Constructing a shapely
`Point` from a missing (`None`) coordinate raises; the raise is modelled as
`none`.  The code contains no guard around these constructions. -/
def gateEval (contains : Int → Int → Bool) (lat lon : Option Int) : Option Bool :=
  match lat, lon with
  | some la, some lo => some (contains la lo)
  | _, _ => none

/-- Decidable equality for `Except` results (used only to evaluate the
embedding on concrete inputs). -/
instance exceptDecEq {e a : Type _} [DecidableEq e] [DecidableEq a] :
    DecidableEq (Except e a) := fun x y =>
  match x, y with
  | Except.error e1, Except.error e2 =>
    if h : e1 = e2 then isTrue (by rw [h]) else
      isFalse (by intro hc; cases hc; exact h rfl)
  | Except.error _, Except.ok _ => isFalse (fun hc => Except.noConfusion hc)
  | Except.ok _, Except.error _ => isFalse (fun hc => Except.noConfusion hc)
  | Except.ok a1, Except.ok a2 =>
    if h : a1 = a2 then isTrue (by rw [h]) else
      isFalse (by intro hc; cases hc; exact h rfl)

/-- The list of `id` values of the table, in row order. -/
def rowIds (db : List Row) : List String :=
  db.map (fun r => r.id)

/-- Whether some row with identifier `i` exists (the check behind
`INSERT OR IGNORE` on the `id` primary key). -/
def hasId (db : List Row) (i : String) : Bool :=
  db.any (fun r => decide (r.id = i))

/-- `SELECT ... WHERE id = ?` returning the unique row with identifier `i`
(ids are a primary key, so at most one row matches). -/
def getRow (db : List Row) (i : String) : Option Row :=
  db.find? (fun r => decide (r.id = i))

/-- `UPDATE panoramas SET ... WHERE id = ?`: apply `f` to every row whose id
is `i`, leave the others untouched. -/
def updateRow (db : List Row) (i : String) (f : Row → Row) : List Row :=
  db.map (fun r => if r.id = i then f r else r)

/-- `UPDATE panoramas SET within_boundary = ?, updated_at = ? WHERE id = ?`
(crawl.py lines 403-404). -/
def setWithin (db : List Row) (i : String) (w : Bool) (now : Nat) : List Row :=
  updateRow db i (fun r => { r with within_boundary := some w, updated_at := now })

/-- `UPDATE panoramas SET metadata_populated = 1, updated_at = ? WHERE id = ?`
(crawl.py lines 422-423). -/
def setMetaPopulated (db : List Row) (i : String) (now : Nat) : List Row :=
  updateRow db i (fun r => { r with metadata_populated := true, updated_at := now })

/-- `UPDATE panoramas SET neighbors_expanded = 1, updated_at = ? WHERE id = ?`
(crawl.py line 189). -/
def markExpanded (db : List Row) (i : String) (now : Nat) : List Row :=
  updateRow db i (fun r => { r with neighbors_expanded := true, updated_at := now })

/-- The dictionary of detailed attributes assembled by
`save_panorama_metadata_to_db` (crawl.py lines 115-144): the basic `id`,
`lat`, `lon` plus the `getattr`-extracted detailed attributes (modelled by a
representative sample). -/
structure ExtractedMetadata where
  id : String
  lat : Int
  lon : Int
  date : Option String
  heading : Option Int
  address : Option String
  copyright_message : Option String
deriving DecidableEq

/-- The extraction step of `save_panorama_metadata_to_db`. -/
def extractMetadata (p : Panorama) : ExtractedMetadata :=
  ⟨p.id, p.lat, p.lon, p.date, p.heading, p.address, p.copyright_message⟩

/-- `save_panorama_metadata_to_db` (crawl.py lines 112-152): the metadata
dictionary is built and then the only statement executed is
`UPDATE panoramas SET lat = ?, lon = ?, updated_at = ? WHERE id = ?`. -/
def save_panorama_metadata_to_db (db : List Row) (p : Panorama) (now : Nat) : List Row :=
  let _metadata := extractMetadata p
  updateRow db p.id (fun r => { r with lat := some p.lat, lon := some p.lon, updated_at := now })

/-- `INSERT OR IGNORE INTO panoramas ...` (crawl.py lines 179-182): the row is
appended only when no row with its id exists; the second component is
`cursor.rowcount > 0`, i.e. whether an insertion happened. -/
def insertIfAbsent (db : List Row) (r : Row) : List Row × Bool :=
  if hasId db r.id then (db, false) else (db ++ [r], true)

/-- The row inserted for a newly discovered neighbor (crawl.py lines
179-182): `metadata_populated = 0`, `neighbors_expanded = 0`,
`within_boundary` from the Geometry Gate, both timestamps fresh. -/
def freshRow (nb : Neighbor) (w : Bool) (now : Nat) : Row :=
  ⟨nb.id, nb.lat, nb.lon, false, some w, false, now, now⟩

/-- The neighbor loop of `expand_panorama_neighbors` (crawl.py lines 173-185):
for each neighbor, evaluate the Geometry Gate, insert-if-absent a fresh row
and count the insertions.  A gate raise (missing coordinate) aborts the loop
at that neighbor, but the `INSERT OR IGNORE`s already executed remain in the
connection's store (they are visible on the same connection and the driver's
exception handler commits them): the raise is modelled as `Except.error`
carrying the partially grown store. -/
def expandNeighbors (contains : Int → Int → Bool) (db : List Row)
    (nbs : List Neighbor) (now : Nat) : Except (List Row) (List Row × Nat) :=
  match nbs with
  | [] => Except.ok (db, 0)
  | nb :: rest =>
    match gateEval contains nb.lat nb.lon with
    | none => Except.error db
    | some w =>
      (expandNeighbors contains (insertIfAbsent db (freshRow nb w now)).1 rest now).map
        fun p => (p.1, if (insertIfAbsent db (freshRow nb w now)).2 then p.2 + 1 else p.2)

/-- `expand_panorama_neighbors` (crawl.py lines 168-191): process all
neighbors, then mark the source panorama `neighbors_expanded = 1`, and return
the count of newly inserted neighbors.  A raise propagates before the source
is marked, keeping the rows inserted so far. -/
def expand_panorama_neighbors (contains : Int → Int → Bool) (db : List Row)
    (p : Panorama) (now : Nat) : Except (List Row) (List Row × Nat) :=
  match expandNeighbors contains db p.neighbors now with
  | Except.error db1 => Except.error db1
  | Except.ok (db1, n) => Except.ok (markExpanded db1 p.id now, n)

/-- The seeded row (crawl.py lines 348-351): inserted with flags 0 and
`within_boundary` already evaluated. -/
def seedRow (p : Panorama) (w : Bool) (now : Nat) : Row :=
  ⟨p.id, some p.lat, some p.lon, false, some w, false, now, now⟩

/-- `INSERT OR REPLACE INTO panoramas ...` (crawl.py lines 348-351). -/
def insertOrReplace (db : List Row) (r : Row) : List Row :=
  (db.filter (fun x => decide (x.id ≠ r.id))) ++ [r]

/-- `radii = [args.radius] + [int(r) for r in args.extra_radii.split(',') if r]`
(crawl.py line 337): the primary radius followed by the configured fallback
radii, in order. -/
def radiiList (radius : Int) (extraRadii : List Int) : List Int :=
  radius :: extraRadii

/-- The seed-search loop (crawl.py lines 339-343): try each radius in order,
stopping at the first lookup that yields a panorama. -/
def findFirstRadius (find : Int → Option Panorama) : List Int → Option Panorama
  | [] => none
  | r :: rest =>
    match find r with
    | some p => some p
    | none => findFirstRadius find rest

/-- The seeding phase (crawl.py lines 328-358): runs only when
`SELECT COUNT(*) FROM panoramas` is zero; aborts with `sys.exit(1)` (modelled
as `Except.error 1`) when the centerpoint is unavailable or every radius is
exhausted; otherwise inserts the found panorama with its boundary membership
evaluated immediately. -/
def seedPhase (contains : Int → Int → Bool) (centerpoint : Option (Int × Int))
    (find : Int × Int → Int → Option Panorama) (radius : Int) (extraRadii : List Int)
    (db : List Row) (now : Nat) : Except Nat (List Row) :=
  if db.isEmpty then
    match centerpoint with
    | none => Except.error 1
    | some c =>
      match findFirstRadius (find c) (radiiList radius extraRadii) with
      | none => Except.error 1
      | some p => Except.ok (insertOrReplace db (seedRow p (contains p.lat p.lon) now))
  else Except.ok db

/-- The WHERE clause of the Frontier Selector query (crawl.py lines 382-386):
not in the run's skip set, and boundary status NULL, or boundary status 1
with metadata or expansion still pending. -/
def frontierPred (skip : List String) (r : Row) : Bool :=
  decide (r.id ∉ skip ∧
    (r.within_boundary = none ∨
      (r.within_boundary = some true ∧
        (r.metadata_populated = false ∨ r.neighbors_expanded = false))))

/-- `a` sorts strictly before `b` under `ORDER BY created_at DESC,
updated_at DESC` (crawl.py line 387). -/
def laterKey (a b : Row) : Bool :=
  decide (b.created_at < a.created_at ∨
    (a.created_at = b.created_at ∧ b.updated_at < a.updated_at))

/-- `LIMIT 1` after the ORDER BY: pick one maximal element of the candidate
list under the `(created_at, updated_at)` descending order (SQLite leaves the
order of ties unspecified; this materialization keeps the earliest of equal
keys). -/
def selectBest : List Row → Option Row
  | [] => none
  | r :: rest =>
    match selectBest rest with
    | none => some r
    | some b => if laterKey b r then some b else some r

/-- The Frontier Selector query (crawl.py lines 379-390): filter by the WHERE
clause, order by `(created_at, updated_at)` descending, return at most one
row. -/
def frontierSelect (db : List Row) (skip : List String) : Option Row :=
  selectBest (db.filter (frontierPred skip))

/-- External collaborators of the iteration loop: the point-in-polygon test
over the fixed boundary polygon and `find_panorama_by_id` (whose raising is
modelled as `Except.error ()` and whose "not found" as `Except.ok none`). -/
structure Env where
  contains : Int → Int → Bool
  findById : String → Except Unit (Option Panorama)

/-- The mutable state of one run: the `panoramas` table, the per-run
`skipped_run_ids` temp table, and `processed_count`. -/
structure CrawlState where
  db : List Row
  skip : List String
  processed : Nat
deriving DecidableEq

/-- `INSERT OR IGNORE INTO skipped_run_ids (id) VALUES (?)` (crawl.py
lines 409, 428, 436, 453, 461). -/
def insertSkip (skip : List String) (i : String) : List String :=
  if i ∈ skip then skip else skip ++ [i]

/-- Side condition on the lookup collaborator: every neighbor record of a
returned panorama carries both coordinates, so no `Point` construction inside
the expansion loop can raise.  (The streetlevel collaborator satisfies this;
without it a mid-expansion raise lets an uncounted iteration grow the
store.) -/
def neighborCoordsTotal (env : Env) : Prop :=
  ∀ i p, env.findById i = Except.ok (some p) →
    ∀ nb ∈ p.neighbors, nb.lat ≠ none ∧ nb.lon ≠ none

/-- Outcome of the just-in-time boundary evaluation block. -/
inductive BoundaryOut where
  | crash : BoundaryOut
  | skipOut : List Row → BoundaryOut
  | through : List Row → Bool → BoundaryOut
deriving DecidableEq

/-- The just-in-time boundary evaluation (crawl.py lines 398-413): when the
selected row's `within_boundary` is NULL, evaluate the Geometry Gate
(a raise here is uncaught: `crash`), persist the result, and on 0 fall into
the skip-and-continue branch; otherwise fall through carrying the flag. -/
def boundaryStage (contains : Int → Int → Bool) (db : List Row) (row : Row)
    (now : Nat) : BoundaryOut :=
  match row.within_boundary with
  | some w => BoundaryOut.through db w
  | none =>
    match gateEval contains row.lat row.lon with
    | none => BoundaryOut.crash
    | some w =>
      let db1 := setWithin db row.id w now
      if w then BoundaryOut.through db1 true else BoundaryOut.skipOut db1

/-- Outcome of the metadata and expansion blocks. -/
inductive StageOut where
  | crash : StageOut
  | skipOut : List Row → StageOut
  | ok : List Row → StageOut
deriving DecidableEq

/-- The metadata-population block (crawl.py lines 415-440): re-read the
`metadata_populated` flag (`fetchone()[0]` on a vanished row would raise:
`crash`); if unset, look the panorama up by id — a raise or a `None` result
leads to the skip-and-continue branch, a success persists the selected
attributes (`save_panorama_metadata_to_db`) and sets the flag. -/
def metadataStage (env : Env) (db : List Row) (panoId : String) (now : Nat) : StageOut :=
  match getRow db panoId with
  | none => StageOut.crash
  | some r =>
    if r.metadata_populated then StageOut.ok db
    else
      match env.findById panoId with
      | Except.error _ => StageOut.skipOut db
      | Except.ok none => StageOut.skipOut db
      | Except.ok (some p) =>
        StageOut.ok (setMetaPopulated (save_panorama_metadata_to_db db p now) panoId now)

/-- The neighbor-expansion block (crawl.py lines 442-465): only when the
boundary flag is 1 and `neighbors_expanded` is still 0, re-fetch the panorama
by id (raise or `None` → skip-and-continue) and run
`expand_panorama_neighbors`.  A raise inside the expansion is caught by the
same handler, but the neighbor rows inserted before the raise stay in the
store: they are visible on the connection and the handler's
`conn.commit()` (line 462) commits them together with the skip insert — so
the skip-and-continue branch carries the partially grown store. -/
def expansionStage (env : Env) (db : List Row) (panoId : String) (wflag : Bool)
    (now : Nat) : StageOut :=
  if wflag then
    match getRow db panoId with
    | none => StageOut.crash
    | some r =>
      if r.neighbors_expanded then StageOut.ok db
      else
        match env.findById panoId with
        | Except.error _ => StageOut.skipOut db
        | Except.ok none => StageOut.skipOut db
        | Except.ok (some p) =>
          match expand_panorama_neighbors env.contains db p now with
          | Except.error db1 => StageOut.skipOut db1
          | Except.ok (db1, _) => StageOut.ok db1
  else StageOut.ok db

/-- Result of one iteration of the crawl loop. -/
inductive StepResult where
  | finished : StepResult
  | crashed : StepResult
  | next : CrawlState → StepResult
deriving DecidableEq

/-- One iteration of the ITERATING loop (crawl.py lines 377-467): ask the
Frontier Selector for a node (none → the loop breaks), run the boundary,
metadata and expansion blocks in order; every skip-and-continue branch adds
the selected id to the run's skip set and leaves `processed_count` unchanged;
only the full fall-through increments `processed_count`. -/
def crawlStep (env : Env) (now : Nat) (s : CrawlState) : StepResult :=
  match frontierSelect s.db s.skip with
  | none => StepResult.finished
  | some row =>
    match boundaryStage env.contains s.db row now with
    | BoundaryOut.crash => StepResult.crashed
    | BoundaryOut.skipOut db1 =>
      StepResult.next ⟨db1, insertSkip s.skip row.id, s.processed⟩
    | BoundaryOut.through db1 wflag =>
      match metadataStage env db1 row.id now with
      | StageOut.crash => StepResult.crashed
      | StageOut.skipOut db2 =>
        StepResult.next ⟨db2, insertSkip s.skip row.id, s.processed⟩
      | StageOut.ok db2 =>
        match expansionStage env db2 row.id wflag now with
        | StageOut.crash => StepResult.crashed
        | StageOut.skipOut db3 =>
          StepResult.next ⟨db3, insertSkip s.skip row.id, s.processed⟩
        | StageOut.ok db3 => StepResult.next ⟨db3, s.skip, s.processed + 1⟩

/-- The ITERATING loop `while processed_count < args.max_new` with an explicit
fuel bound (`none` = fuel exhausted before the loop finished); `clock`
advances each iteration so each iteration's timestamps are fresh. -/
def fueledLoop (env : Env) (maxNew : Nat) : Nat → Nat → CrawlState → Option CrawlState
  | 0, _, _ => none
  | fuel + 1, clock, s =>
    if s.processed < maxNew then
      match crawlStep env clock s with
      | StepResult.finished => some s
      | StepResult.crashed => some s
      | StepResult.next s1 => fueledLoop env maxNew fuel (clock + 1) s1
    else some s

/-- The number of distinct row ids not yet in the run's skip set (the
termination measure for uncounted iterations). -/
def unskippedCount (s : CrawlState) : Nat :=
  ((rowIds s.db).dedup.filter (fun i => decide (i ∉ s.skip))).length

/-- The candidate order of the Frontier Selector, as a proposition:
`c` sorts no later than `r` under `ORDER BY created_at DESC, updated_at DESC`. -/
def keyLE (c r : Row) : Prop :=
  c.created_at < r.created_at ∨
    (c.created_at = r.created_at ∧ c.updated_at ≤ r.updated_at)

/-- Relation between a table and its successor: every row of the successor
either carries the `within_boundary` value of a row of the original table
with the same id, or has a definite (non-NULL) `within_boundary`. -/
def withinOrigin (db db' : List Row) : Prop :=
  ∀ r' ∈ db', (∃ r ∈ db, r'.id = r.id ∧ r'.within_boundary = r.within_boundary) ∨
    r'.within_boundary ≠ none

/-! ### Basic lemmas about the table helpers -/

theorem keyLE_refl (r : Row) : keyLE r r := Or.inr ⟨rfl, le_refl _⟩

theorem keyLE_trans {a b c : Row} (h1 : keyLE a b) (h2 : keyLE b c) : keyLE a c := by
  rcases h1 with h1 | ⟨h1, h1'⟩ <;> rcases h2 with h2 | ⟨h2, h2'⟩
  · exact Or.inl (h1.trans h2)
  · exact Or.inl (h2 ▸ h1)
  · exact Or.inl (h1 ▸ h2)
  · exact Or.inr ⟨h1.trans h2, h1'.trans h2'⟩

theorem keyLE_of_not_laterKey {a b : Row} (h : laterKey a b = false) : keyLE a b := by
  unfold laterKey at h
  rw [decide_eq_false_iff_not] at h
  push_neg at h
  rcases Nat.lt_trichotomy a.created_at b.created_at with hlt | heq | hgt
  · exact Or.inl hlt
  · exact Or.inr ⟨heq, h.2 heq⟩
  · exact absurd hgt (Nat.not_lt.mpr h.1)

theorem keyLE_of_laterKey {a b : Row} (h : laterKey a b = true) : keyLE b a := by
  unfold laterKey at h
  rw [decide_eq_true_iff] at h
  rcases h with h | ⟨h, h'⟩
  · exact Or.inl h
  · exact Or.inr ⟨h.symm, h'.le⟩

theorem selectBest_mem : ∀ {l : List Row} {r : Row}, selectBest l = some r → r ∈ l := by
  intro l
  induction l with
  | nil => intro r h; simp [selectBest] at h
  | cons a rest ih =>
    intro r h
    unfold selectBest at h
    split at h
    · simp only [Option.some.injEq] at h
      exact h ▸ List.mem_cons_self a rest
    · rename_i b hrec
      split at h
      · simp only [Option.some.injEq] at h
        exact List.mem_cons_of_mem a (h ▸ ih hrec)
      · simp only [Option.some.injEq] at h
        exact h ▸ List.mem_cons_self a rest

theorem selectBest_eq_none : ∀ {l : List Row}, selectBest l = none → l = [] := by
  intro l h
  cases l with
  | nil => rfl
  | cons a rest =>
    exfalso
    unfold selectBest at h
    split at h
    · exact Option.noConfusion h
    · split at h <;> exact Option.noConfusion h

theorem selectBest_maximal : ∀ {l : List Row} {r : Row}, selectBest l = some r →
    ∀ c ∈ l, keyLE c r := by
  intro l
  induction l with
  | nil => intro r _ c hc; simp at hc
  | cons a rest ih =>
    intro r h c hc
    unfold selectBest at h
    split at h
    · rename_i hrec
      have hrest := selectBest_eq_none hrec
      subst hrest
      simp only [Option.some.injEq] at h
      rcases List.mem_singleton.mp hc with rfl
      exact h ▸ keyLE_refl c
    · rename_i b hrec
      split at h
      · rename_i hl
        simp only [Option.some.injEq] at h
        subst h
        rcases List.mem_cons.mp hc with rfl | hc
        · exact keyLE_of_laterKey hl
        · exact ih hrec c hc
      · rename_i hl
        simp only [Option.some.injEq] at h
        subst h
        rcases List.mem_cons.mp hc with rfl | hc
        · exact keyLE_refl c
        · exact keyLE_trans (ih hrec c hc)
            (keyLE_of_not_laterKey (Bool.eq_false_iff.mpr hl))

theorem frontierPred_iff {skip : List String} {r : Row} :
    frontierPred skip r = true ↔
      (r.id ∉ skip ∧
        (r.within_boundary = none ∨
          (r.within_boundary = some true ∧
            (r.metadata_populated = false ∨ r.neighbors_expanded = false)))) := by
  unfold frontierPred
  exact decide_eq_true_iff

theorem frontierSelect_mem {db : List Row} {skip : List String} {r : Row}
    (h : frontierSelect db skip = some r) :
    r ∈ db ∧ r.id ∉ skip ∧
      (r.within_boundary = none ∨
        (r.within_boundary = some true ∧
          (r.metadata_populated = false ∨ r.neighbors_expanded = false))) := by
  have hmem := selectBest_mem h
  have hfil := List.of_mem_filter hmem
  have hin := List.mem_of_mem_filter hmem
  have := frontierPred_iff.mp hfil
  exact ⟨hin, this.1, this.2⟩

theorem frontierSelect_maximal {db : List Row} {skip : List String} {r : Row}
    (h : frontierSelect db skip = some r) :
    ∀ c ∈ db, frontierPred skip c = true → keyLE c r := by
  intro c hc hpred
  exact selectBest_maximal h c (List.mem_filter.mpr ⟨hc, hpred⟩)

theorem hasId_iff {db : List Row} {i : String} :
    hasId db i = true ↔ ∃ r ∈ db, r.id = i := by
  unfold hasId
  simp [List.any_eq_true]

theorem hasId_iff_mem_rowIds {db : List Row} {i : String} :
    hasId db i = true ↔ i ∈ rowIds db := by
  rw [hasId_iff]
  unfold rowIds
  rw [List.mem_map]

theorem mem_rowIds_of_mem {db : List Row} {r : Row} (h : r ∈ db) : r.id ∈ rowIds db :=
  List.mem_map_of_mem (fun x => x.id) h

theorem nodup_id_unique {db : List Row} (hN : (rowIds db).Nodup)
    {a b : Row} (ha : a ∈ db) (hb : b ∈ db) (h : a.id = b.id) : a = b :=
  List.inj_on_of_nodup_map hN ha hb h

theorem getRow_eq_some {db : List Row} {i : String} {r : Row}
    (h : getRow db i = some r) : r ∈ db ∧ r.id = i := by
  unfold getRow at h
  have h1 := List.mem_of_find?_eq_some h
  have h2 := List.find?_some h
  exact ⟨h1, of_decide_eq_true h2⟩

theorem getRow_of_mem {db : List Row} (hN : (rowIds db).Nodup)
    {r : Row} (h : r ∈ db) : getRow db r.id = some r := by
  rcases hg : getRow db r.id with _ | r'
  · exfalso
    unfold getRow at hg
    have := List.find?_eq_none.mp hg r h
    simp at this
  · rcases getRow_eq_some hg with ⟨hmem, hid⟩
    rw [nodup_id_unique hN hmem h hid]

theorem rowIds_updateRow {db : List Row} {i : String} {f : Row → Row}
    (hf : ∀ r, (f r).id = r.id) : rowIds (updateRow db i f) = rowIds db := by
  unfold rowIds updateRow
  rw [List.map_map]
  apply List.map_congr_left
  intro r _
  by_cases h : r.id = i
  · simp [h, hf]
  · simp [h]

theorem mem_updateRow {db : List Row} {i : String} {f : Row → Row} {r' : Row} :
    r' ∈ updateRow db i f ↔ ∃ r ∈ db, r' = if r.id = i then f r else r := by
  unfold updateRow
  rw [List.mem_map]
  constructor
  · rintro ⟨r, hr, rfl⟩; exact ⟨r, hr, rfl⟩
  · rintro ⟨r, hr, rfl⟩; exact ⟨r, hr, rfl⟩

theorem mem_updateRow_of_ne {db : List Row} {i : String} {f : Row → Row} {r : Row}
    (hr : r ∈ db) (hne : r.id ≠ i) : r ∈ updateRow db i f :=
  mem_updateRow.mpr ⟨r, hr, by rw [if_neg hne]⟩

theorem rowIds_append (db l : List Row) : rowIds (db ++ l) = rowIds db ++ rowIds l :=
  List.map_append _ _ _

theorem hasId_append {db l : List Row} {i : String} :
    hasId (db ++ l) i = (hasId db i || hasId l i) :=
  List.any_append

theorem freshRow_id (nb : Neighbor) (w : Bool) (now : Nat) :
    (freshRow nb w now).id = nb.id := rfl

theorem rowIds_setWithin (db : List Row) (i : String) (w : Bool) (now : Nat) :
    rowIds (setWithin db i w now) = rowIds db :=
  rowIds_updateRow (fun _ => rfl)

theorem rowIds_setMetaPopulated (db : List Row) (i : String) (now : Nat) :
    rowIds (setMetaPopulated db i now) = rowIds db :=
  rowIds_updateRow (fun _ => rfl)

theorem rowIds_markExpanded (db : List Row) (i : String) (now : Nat) :
    rowIds (markExpanded db i now) = rowIds db :=
  rowIds_updateRow (fun _ => rfl)

theorem rowIds_save (db : List Row) (p : Panorama) (now : Nat) :
    rowIds (save_panorama_metadata_to_db db p now) = rowIds db :=
  rowIds_updateRow (fun _ => rfl)

/-! ### Lemmas about the Expansion Step -/

theorem except_map_eq_ok {e a b : Type _} {f : a → b} {x : Except e a} {v : b}
    (h : x.map f = Except.ok v) : ∃ u, x = Except.ok u ∧ f u = v := by
  cases x with
  | error e2 => exact Except.noConfusion h
  | ok u => exact ⟨u, rfl, Except.ok.inj h⟩

theorem except_map_eq_error {e a b : Type _} {f : a → b} {x : Except e a} {e2 : e}
    (h : x.map f = Except.error e2) : x = Except.error e2 := by
  cases x with
  | error e3 => simpa [Except.map] using h
  | ok u => exact Except.noConfusion h

theorem expandNeighbors_cons_ok {contains : Int → Int → Bool} {now : Nat}
    {nb : Neighbor} {rest : List Neighbor} {db db1 : List Row} {n : Nat}
    (h : expandNeighbors contains db (nb :: rest) now = Except.ok (db1, n)) :
    ∃ w, gateEval contains nb.lat nb.lon = some w ∧
      ∃ db2 m,
        expandNeighbors contains (insertIfAbsent db (freshRow nb w now)).1 rest now =
          Except.ok (db2, m) ∧
        db2 = db1 ∧
        (if (insertIfAbsent db (freshRow nb w now)).2 = true then m + 1 else m) = n := by
  simp only [expandNeighbors] at h
  split at h
  · exact Except.noConfusion h
  · rename_i w hg
    obtain ⟨⟨db2, m⟩, hrec, hp⟩ := except_map_eq_ok h
    simp only [Prod.mk.injEq] at hp
    exact ⟨w, hg, db2, m, hrec, hp.1, hp.2⟩

theorem expandNeighbors_cons_error {contains : Int → Int → Bool} {now : Nat}
    {nb : Neighbor} {rest : List Neighbor} {db db1 : List Row}
    (h : expandNeighbors contains db (nb :: rest) now = Except.error db1) :
    (gateEval contains nb.lat nb.lon = none ∧ db1 = db) ∨
      ∃ w, gateEval contains nb.lat nb.lon = some w ∧
        expandNeighbors contains (insertIfAbsent db (freshRow nb w now)).1 rest now =
          Except.error db1 := by
  simp only [expandNeighbors] at h
  split at h
  · rename_i hg
    simp only [Except.error.injEq] at h
    exact Or.inl ⟨hg, h.symm⟩
  · rename_i w hg
    exact Or.inr ⟨w, hg, except_map_eq_error h⟩

theorem expandNeighbors_extend {contains : Int → Int → Bool} {now : Nat} :
    ∀ {nbs : List Neighbor} {db db1 : List Row} {n : Nat},
      expandNeighbors contains db nbs now = Except.ok (db1, n) → ∃ ext, db1 = db ++ ext := by
  intro nbs
  induction nbs with
  | nil =>
    intro db db1 n h
    simp only [expandNeighbors, Except.ok.injEq, Prod.mk.injEq] at h
    exact ⟨[], by simp [← h.1]⟩
  | cons nb rest ih =>
    intro db db1 n h
    obtain ⟨w, hg, db2, m, hrec, hp1, hp2⟩ := expandNeighbors_cons_ok h
    obtain ⟨ext, hext⟩ := ih hrec
    by_cases hh : hasId db nb.id = true
    · refine ⟨ext, ?_⟩
      rw [← hp1, hext]
      simp [insertIfAbsent, freshRow_id, hh]
    · refine ⟨freshRow nb w now :: ext, ?_⟩
      rw [← hp1, hext]
      simp [insertIfAbsent, freshRow_id, hh]

theorem expandNeighbors_hasId_mono {contains : Int → Int → Bool} {now : Nat}
    {nbs : List Neighbor} {db db1 : List Row} {n : Nat}
    (h : expandNeighbors contains db nbs now = Except.ok (db1, n))
    {i : String} (hi : hasId db i = true) : hasId db1 i = true := by
  obtain ⟨ext, rfl⟩ := expandNeighbors_extend h
  rw [hasId_append, hi, Bool.true_or]

theorem expandNeighbors_mem {contains : Int → Int → Bool} {now : Nat} :
    ∀ {nbs : List Neighbor} {db db1 : List Row} {n : Nat},
      expandNeighbors contains db nbs now = Except.ok (db1, n) →
      ∀ r' ∈ db1, r' ∈ db ∨
        (hasId db r'.id = false ∧ ∃ nb ∈ nbs, ∃ w,
          gateEval contains nb.lat nb.lon = some w ∧ r' = freshRow nb w now) := by
  intro nbs
  induction nbs with
  | nil =>
    intro db db1 n h r' hr'
    simp only [expandNeighbors, Except.ok.injEq, Prod.mk.injEq] at h
    exact Or.inl (h.1 ▸ hr')
  | cons nb rest ih =>
    intro db db1 n h r' hr'
    obtain ⟨w, hg, db2, m, hrec, hp1, hp2⟩ := expandNeighbors_cons_ok h
    have hr2 : r' ∈ db2 := hp1 ▸ hr'
    by_cases hh : hasId db nb.id = true
    · have hstep : (insertIfAbsent db (freshRow nb w now)).1 = db := by
        simp [insertIfAbsent, freshRow_id, hh]
      rw [hstep] at hrec
      rcases ih hrec r' hr2 with hin | ⟨hnot, nb', hnb', w', hg', hfresh⟩
      · exact Or.inl hin
      · exact Or.inr ⟨hnot, nb', List.mem_cons_of_mem nb hnb', w', hg', hfresh⟩
    · have hstep : (insertIfAbsent db (freshRow nb w now)).1 = db ++ [freshRow nb w now] := by
        simp [insertIfAbsent, freshRow_id, hh]
      rw [hstep] at hrec
      rcases ih hrec r' hr2 with hin | ⟨hnot, nb', hnb', w', hg', hfresh⟩
      · rcases List.mem_append.mp hin with hin | hin
        · exact Or.inl hin
        · rcases List.mem_singleton.mp hin with rfl
          refine Or.inr ⟨?_, nb, List.mem_cons_self nb rest, w, hg, rfl⟩
          rw [freshRow_id]
          exact Bool.eq_false_iff.mpr hh
      · refine Or.inr ⟨?_, nb', List.mem_cons_of_mem nb hnb', w', hg', hfresh⟩
        rw [hasId_append] at hnot
        exact (Bool.or_eq_false_iff.mp hnot).1

theorem expandNeighbors_all_present {contains : Int → Int → Bool} {now : Nat} :
    ∀ {nbs : List Neighbor} {db db1 : List Row} {n : Nat},
      expandNeighbors contains db nbs now = Except.ok (db1, n) →
      ∀ nb ∈ nbs, hasId db1 nb.id = true := by
  intro nbs
  induction nbs with
  | nil => intro db db1 n _ nb hnb; simp at hnb
  | cons nb0 rest ih =>
    intro db db1 n h nb hnb
    obtain ⟨w, hg, db2, m, hrec, hp1, hp2⟩ := expandNeighbors_cons_ok h
    rcases List.mem_cons.mp hnb with rfl | hnb
    · by_cases hh : hasId db nb.id = true
      · have hstep : (insertIfAbsent db (freshRow nb w now)).1 = db := by
          simp [insertIfAbsent, freshRow_id, hh]
        rw [hstep] at hrec
        exact hp1 ▸ expandNeighbors_hasId_mono hrec hh
      · have hstep : (insertIfAbsent db (freshRow nb w now)).1 = db ++ [freshRow nb w now] := by
          simp [insertIfAbsent, freshRow_id, hh]
        rw [hstep] at hrec
        have hbase : hasId (db ++ [freshRow nb w now]) nb.id = true := by
          rw [hasId_append]
          have hsingle : hasId [freshRow nb w now] nb.id = true := by
            simp [hasId, freshRow_id]
          rw [hsingle, Bool.or_true]
        exact hp1 ▸ expandNeighbors_hasId_mono hrec hbase
    · exact hp1 ▸ ih hrec nb hnb

theorem expandNeighbors_gate_some {contains : Int → Int → Bool} {now : Nat} :
    ∀ {nbs : List Neighbor} {db db1 : List Row} {n : Nat},
      expandNeighbors contains db nbs now = Except.ok (db1, n) →
      ∀ nb ∈ nbs, ∃ w, gateEval contains nb.lat nb.lon = some w := by
  intro nbs
  induction nbs with
  | nil => intro db db1 n _ nb hnb; simp at hnb
  | cons nb0 rest ih =>
    intro db db1 n h nb hnb
    obtain ⟨w, hg, db2, m, hrec, _, _⟩ := expandNeighbors_cons_ok h
    rcases List.mem_cons.mp hnb with rfl | hnb
    · exact ⟨w, hg⟩
    · exact ih hrec nb hnb

theorem expandNeighbors_nodup {contains : Int → Int → Bool} {now : Nat} :
    ∀ {nbs : List Neighbor} {db db1 : List Row} {n : Nat},
      expandNeighbors contains db nbs now = Except.ok (db1, n) →
      (rowIds db).Nodup → (rowIds db1).Nodup := by
  intro nbs
  induction nbs with
  | nil =>
    intro db db1 n h hN
    simp only [expandNeighbors, Except.ok.injEq, Prod.mk.injEq] at h
    exact h.1 ▸ hN
  | cons nb rest ih =>
    intro db db1 n h hN
    obtain ⟨w, hg, db2, m, hrec, hp1, hp2⟩ := expandNeighbors_cons_ok h
    by_cases hh : hasId db nb.id = true
    · have hstep : (insertIfAbsent db (freshRow nb w now)).1 = db := by
        simp [insertIfAbsent, freshRow_id, hh]
      rw [hstep] at hrec
      exact hp1 ▸ ih hrec hN
    · have hstep : (insertIfAbsent db (freshRow nb w now)).1 = db ++ [freshRow nb w now] := by
        simp [insertIfAbsent, freshRow_id, hh]
      rw [hstep] at hrec
      refine hp1 ▸ ih hrec ?_
      have hids : rowIds (db ++ [freshRow nb w now]) = rowIds db ++ [nb.id] := by
        rw [rowIds_append]; rfl
      have hni : nb.id ∉ rowIds db := fun hc => hh (hasId_iff_mem_rowIds.mpr hc)
      rw [hids, List.nodup_append]
      refine ⟨hN, List.nodup_singleton _, ?_⟩
      intro a ha hb
      exact hni ((List.mem_singleton.mp hb) ▸ ha)

theorem expandNeighbors_count {contains : Int → Int → Bool} {now : Nat} :
    ∀ {nbs : List Neighbor} {db db1 : List Row} {n : Nat},
      expandNeighbors contains db nbs now = Except.ok (db1, n) →
      n = ((nbs.map Neighbor.id).toFinset \ (rowIds db).toFinset).card := by
  intro nbs
  induction nbs with
  | nil =>
    intro db db1 n h
    simp only [expandNeighbors, Except.ok.injEq, Prod.mk.injEq] at h
    simp [← h.2]
  | cons nb rest ih =>
    intro db db1 n h
    obtain ⟨w, hg, db2, m, hrec, hp1, hp2⟩ := expandNeighbors_cons_ok h
    by_cases hh : hasId db nb.id = true
    · have hstep1 : (insertIfAbsent db (freshRow nb w now)).1 = db := by
        simp [insertIfAbsent, freshRow_id, hh]
      have hstep2 : (insertIfAbsent db (freshRow nb w now)).2 = false := by
        simp [insertIfAbsent, freshRow_id, hh]
      rw [hstep1] at hrec
      rw [hstep2, if_neg Bool.false_ne_true] at hp2
      have hmem : nb.id ∈ (rowIds db).toFinset :=
        List.mem_toFinset.mpr (hasId_iff_mem_rowIds.mp hh)
      rw [← hp2, ih hrec]
      simp only [List.map_cons, List.toFinset_cons]
      rw [Finset.insert_sdiff_of_mem _ hmem]
    · have hstep1 : (insertIfAbsent db (freshRow nb w now)).1 = db ++ [freshRow nb w now] := by
        simp [insertIfAbsent, freshRow_id, hh]
      have hstep2 : (insertIfAbsent db (freshRow nb w now)).2 = true := by
        simp [insertIfAbsent, freshRow_id, hh]
      rw [hstep1] at hrec
      rw [hstep2, if_pos rfl] at hp2
      have hids : rowIds (db ++ [freshRow nb w now]) = rowIds db ++ [nb.id] := by
        rw [rowIds_append]; rfl
      have hni : nb.id ∉ (rowIds db).toFinset := fun hc =>
        hh (hasId_iff_mem_rowIds.mpr (List.mem_toFinset.mp hc))
      have hT2 : (rowIds db ++ [nb.id]).toFinset = insert nb.id (rowIds db).toFinset := by
        rw [List.toFinset_append, List.toFinset_cons, List.toFinset_nil,
          Finset.union_insert, Finset.union_empty]
      rw [← hp2, ih hrec, hids, hT2]
      simp only [List.map_cons, List.toFinset_cons]
      rw [Finset.sdiff_insert, Finset.insert_sdiff_of_not_mem _ hni,
        Finset.card_insert_eq_ite, Finset.card_erase_eq_ite]
      by_cases hmem : nb.id ∈ (rest.map Neighbor.id).toFinset \ (rowIds db).toFinset
      · rw [if_pos hmem, if_pos hmem]
        have h1 : 1 ≤ ((rest.map Neighbor.id).toFinset \ (rowIds db).toFinset).card :=
          Finset.card_pos.mpr ⟨nb.id, hmem⟩
        omega
      · rw [if_neg hmem, if_neg hmem]

theorem expandNeighbors_error_extend {contains : Int → Int → Bool} {now : Nat} :
    ∀ {nbs : List Neighbor} {db db1 : List Row},
      expandNeighbors contains db nbs now = Except.error db1 → ∃ ext, db1 = db ++ ext := by
  intro nbs
  induction nbs with
  | nil => intro db db1 h; exact Except.noConfusion h
  | cons nb rest ih =>
    intro db db1 h
    rcases expandNeighbors_cons_error h with ⟨_, rfl⟩ | ⟨w, hg, hrec⟩
    · exact ⟨[], by simp⟩
    · obtain ⟨ext, hext⟩ := ih hrec
      by_cases hh : hasId db nb.id = true
      · refine ⟨ext, ?_⟩
        rw [hext]
        simp [insertIfAbsent, freshRow_id, hh]
      · refine ⟨freshRow nb w now :: ext, ?_⟩
        rw [hext]
        simp [insertIfAbsent, freshRow_id, hh]

theorem expandNeighbors_error_mem {contains : Int → Int → Bool} {now : Nat} :
    ∀ {nbs : List Neighbor} {db db1 : List Row},
      expandNeighbors contains db nbs now = Except.error db1 →
      ∀ r' ∈ db1, r' ∈ db ∨
        (hasId db r'.id = false ∧ ∃ nb ∈ nbs, ∃ w,
          gateEval contains nb.lat nb.lon = some w ∧ r' = freshRow nb w now) := by
  intro nbs
  induction nbs with
  | nil => intro db db1 h; exact Except.noConfusion h
  | cons nb rest ih =>
    intro db db1 h r' hr'
    rcases expandNeighbors_cons_error h with ⟨_, rfl⟩ | ⟨w, hg, hrec⟩
    · exact Or.inl hr'
    · by_cases hh : hasId db nb.id = true
      · have hstep : (insertIfAbsent db (freshRow nb w now)).1 = db := by
          simp [insertIfAbsent, freshRow_id, hh]
        rw [hstep] at hrec
        rcases ih hrec r' hr' with hin | ⟨hnot, nb', hnb', w', hg', hfresh⟩
        · exact Or.inl hin
        · exact Or.inr ⟨hnot, nb', List.mem_cons_of_mem nb hnb', w', hg', hfresh⟩
      · have hstep : (insertIfAbsent db (freshRow nb w now)).1 = db ++ [freshRow nb w now] := by
          simp [insertIfAbsent, freshRow_id, hh]
        rw [hstep] at hrec
        rcases ih hrec r' hr' with hin | ⟨hnot, nb', hnb', w', hg', hfresh⟩
        · rcases List.mem_append.mp hin with hin | hin
          · exact Or.inl hin
          · rcases List.mem_singleton.mp hin with rfl
            refine Or.inr ⟨?_, nb, List.mem_cons_self nb rest, w, hg, rfl⟩
            rw [freshRow_id]
            exact Bool.eq_false_iff.mpr hh
        · refine Or.inr ⟨?_, nb', List.mem_cons_of_mem nb hnb', w', hg', hfresh⟩
          rw [hasId_append] at hnot
          exact (Bool.or_eq_false_iff.mp hnot).1

theorem expandNeighbors_ne_error {contains : Int → Int → Bool} {now : Nat} :
    ∀ {nbs : List Neighbor} {db db1 : List Row},
      (∀ nb ∈ nbs, ∃ w, gateEval contains nb.lat nb.lon = some w) →
      expandNeighbors contains db nbs now ≠ Except.error db1 := by
  intro nbs
  induction nbs with
  | nil => intro db db1 _ h; exact Except.noConfusion h
  | cons nb rest ih =>
    intro db db1 hgate h
    rcases expandNeighbors_cons_error h with ⟨hg, _⟩ | ⟨w, hg, hrec⟩
    · obtain ⟨w, hw⟩ := hgate nb (List.mem_cons_self nb rest)
      rw [hg] at hw
      exact Option.noConfusion hw
    · exact ih (fun x hx => hgate x (List.mem_cons_of_mem nb hx)) hrec

theorem expand_panorama_neighbors_eq_ok {contains : Int → Int → Bool}
    {db : List Row} {p : Panorama} {now : Nat} {db' : List Row} {n : Nat}
    (h : expand_panorama_neighbors contains db p now = Except.ok (db', n)) :
    ∃ db1, expandNeighbors contains db p.neighbors now = Except.ok (db1, n) ∧
      db' = markExpanded db1 p.id now := by
  unfold expand_panorama_neighbors at h
  split at h
  · exact Except.noConfusion h
  · rename_i db1 m heq
    simp only [Except.ok.injEq, Prod.mk.injEq] at h
    exact ⟨db1, h.2 ▸ heq, h.1.symm⟩

theorem expand_panorama_neighbors_eq_error {contains : Int → Int → Bool}
    {db : List Row} {p : Panorama} {now : Nat} {db1 : List Row}
    (h : expand_panorama_neighbors contains db p now = Except.error db1) :
    expandNeighbors contains db p.neighbors now = Except.error db1 := by
  unfold expand_panorama_neighbors at h
  split at h
  · rename_i db2 heq
    simp only [Except.error.injEq] at h
    exact h ▸ heq
  · exact Except.noConfusion h

theorem expandNeighbors_of_all_present {contains : Int → Int → Bool} {now : Nat} :
    ∀ {nbs : List Neighbor} {db : List Row},
      (∀ nb ∈ nbs, hasId db nb.id = true) →
      (∀ nb ∈ nbs, ∃ w, gateEval contains nb.lat nb.lon = some w) →
      expandNeighbors contains db nbs now = Except.ok (db, 0) := by
  intro nbs
  induction nbs with
  | nil => intro db _ _; rfl
  | cons nb rest ih =>
    intro db hall hgate
    obtain ⟨w, hg⟩ := hgate nb (List.mem_cons_self nb rest)
    have hh := hall nb (List.mem_cons_self nb rest)
    have hstep1 : (insertIfAbsent db (freshRow nb w now)).1 = db := by
      simp [insertIfAbsent, freshRow_id, hh]
    have hstep2 : (insertIfAbsent db (freshRow nb w now)).2 = false := by
      simp [insertIfAbsent, freshRow_id, hh]
    simp only [expandNeighbors, hg]
    rw [hstep1, ih (fun x hx => hall x (List.mem_cons_of_mem nb hx))
      (fun x hx => hgate x (List.mem_cons_of_mem nb hx)), hstep2]
    simp [Except.map]
/-! ### Characterization of the driver stages -/

theorem boundaryStage_skipOut {contains : Int → Int → Bool} {db : List Row} {row : Row}
    {now : Nat} {db1 : List Row}
    (h : boundaryStage contains db row now = BoundaryOut.skipOut db1) :
    row.within_boundary = none ∧ gateEval contains row.lat row.lon = some false ∧
      db1 = setWithin db row.id false now := by
  unfold boundaryStage at h
  split at h
  · exact BoundaryOut.noConfusion h
  · rename_i hwb
    split at h
    · exact BoundaryOut.noConfusion h
    · rename_i w hg
      split at h
      · exact BoundaryOut.noConfusion h
      · rename_i hw
        have hw' : w = false := Bool.eq_false_iff.mpr hw
        subst hw'
        simp only [BoundaryOut.skipOut.injEq] at h
        exact ⟨hwb, hg, h.symm⟩

theorem boundaryStage_through {contains : Int → Int → Bool} {db : List Row} {row : Row}
    {now : Nat} {db1 : List Row} {wflag : Bool}
    (h : boundaryStage contains db row now = BoundaryOut.through db1 wflag) :
    (row.within_boundary = some wflag ∧ db1 = db) ∨
      (row.within_boundary = none ∧ wflag = true ∧
        gateEval contains row.lat row.lon = some true ∧
        db1 = setWithin db row.id true now) := by
  unfold boundaryStage at h
  split at h
  · rename_i w hwb
    simp only [BoundaryOut.through.injEq] at h
    exact Or.inl ⟨h.2 ▸ hwb, h.1.symm⟩
  · rename_i hwb
    split at h
    · exact BoundaryOut.noConfusion h
    · rename_i w hg
      split at h
      · rename_i hw
        subst hw
        simp only [BoundaryOut.through.injEq] at h
        exact Or.inr ⟨hwb, h.2.symm, hg, h.1.symm⟩
      · exact BoundaryOut.noConfusion h

theorem metadataStage_skipOut {env : Env} {db : List Row} {i : String} {now : Nat}
    {db2 : List Row} (h : metadataStage env db i now = StageOut.skipOut db2) :
    db2 = db ∧ ∃ r, getRow db i = some r ∧ r.metadata_populated = false ∧
      (env.findById i = Except.error () ∨ env.findById i = Except.ok none) := by
  unfold metadataStage at h
  split at h
  · exact StageOut.noConfusion h
  · rename_i r hr
    split at h
    · exact StageOut.noConfusion h
    · rename_i hm
      split at h
      · rename_i e hfe
        simp only [StageOut.skipOut.injEq] at h
        exact ⟨h.symm, r, hr, Bool.eq_false_iff.mpr hm, Or.inl (by cases e; exact hfe)⟩
      · rename_i hfn
        simp only [StageOut.skipOut.injEq] at h
        exact ⟨h.symm, r, hr, Bool.eq_false_iff.mpr hm, Or.inr hfn⟩
      · exact StageOut.noConfusion h

theorem metadataStage_ok {env : Env} {db : List Row} {i : String} {now : Nat}
    {db2 : List Row} (h : metadataStage env db i now = StageOut.ok db2) :
    ∃ r, getRow db i = some r ∧
      ((r.metadata_populated = true ∧ db2 = db) ∨
        (r.metadata_populated = false ∧ ∃ p, env.findById i = Except.ok (some p) ∧
          db2 = setMetaPopulated (save_panorama_metadata_to_db db p now) i now)) := by
  unfold metadataStage at h
  split at h
  · exact StageOut.noConfusion h
  · rename_i r hr
    split at h
    · rename_i hm
      simp only [StageOut.ok.injEq] at h
      exact ⟨r, hr, Or.inl ⟨hm, h.symm⟩⟩
    · rename_i hm
      split at h
      · exact StageOut.noConfusion h
      · exact StageOut.noConfusion h
      · rename_i p hfp
        simp only [StageOut.ok.injEq] at h
        exact ⟨r, hr, Or.inr ⟨Bool.eq_false_iff.mpr hm, p, hfp, h.symm⟩⟩

theorem expansionStage_skipOut {env : Env} {db : List Row} {i : String} {wflag : Bool}
    {now : Nat} {db3 : List Row}
    (h : expansionStage env db i wflag now = StageOut.skipOut db3) :
    wflag = true ∧ (∃ r, getRow db i = some r ∧ r.neighbors_expanded = false) ∧
      (db3 = db ∨ ∃ p, env.findById i = Except.ok (some p) ∧
        expand_panorama_neighbors env.contains db p now = Except.error db3) := by
  unfold expansionStage at h
  split at h
  · rename_i hw
    split at h
    · exact StageOut.noConfusion h
    · rename_i r hr
      split at h
      · exact StageOut.noConfusion h
      · rename_i hm
        split at h
        · simp only [StageOut.skipOut.injEq] at h
          exact ⟨hw, ⟨r, hr, Bool.eq_false_iff.mpr hm⟩, Or.inl h.symm⟩
        · simp only [StageOut.skipOut.injEq] at h
          exact ⟨hw, ⟨r, hr, Bool.eq_false_iff.mpr hm⟩, Or.inl h.symm⟩
        · rename_i p hfp
          split at h
          · rename_i db4 hexp
            simp only [StageOut.skipOut.injEq] at h
            exact ⟨hw, ⟨r, hr, Bool.eq_false_iff.mpr hm⟩, Or.inr ⟨p, hfp, h ▸ hexp⟩⟩
          · exact StageOut.noConfusion h
  · exact StageOut.noConfusion h

theorem expansionStage_ok {env : Env} {db : List Row} {i : String} {wflag : Bool}
    {now : Nat} {db3 : List Row}
    (h : expansionStage env db i wflag now = StageOut.ok db3) :
    (wflag = false ∧ db3 = db) ∨
      (wflag = true ∧ ∃ r, getRow db i = some r ∧
        ((r.neighbors_expanded = true ∧ db3 = db) ∨
          (r.neighbors_expanded = false ∧ ∃ p n, env.findById i = Except.ok (some p) ∧
            expand_panorama_neighbors env.contains db p now = Except.ok (db3, n)))) := by
  unfold expansionStage at h
  split at h
  · rename_i hw
    split at h
    · exact StageOut.noConfusion h
    · rename_i r hr
      split at h
      · rename_i hm
        simp only [StageOut.ok.injEq] at h
        exact Or.inr ⟨hw, r, hr, Or.inl ⟨hm, h.symm⟩⟩
      · rename_i hm
        split at h
        · exact StageOut.noConfusion h
        · exact StageOut.noConfusion h
        · rename_i p hfp
          split at h
          · exact StageOut.noConfusion h
          · rename_i db4 n hexp
            simp only [StageOut.ok.injEq] at h
            exact Or.inr ⟨hw, r, hr, Or.inr
              ⟨Bool.eq_false_iff.mpr hm, p, n, hfp, h ▸ hexp⟩⟩
  · rename_i hw
    simp only [StageOut.ok.injEq] at h
    exact Or.inl ⟨Bool.eq_false_iff.mpr (by simpa using hw), h.symm⟩

theorem expansionStage_skipOut_mem {env : Env} {db : List Row} {i : String}
    {wflag : Bool} {now : Nat} {db3 : List Row} {r' : Row}
    (h : expansionStage env db i wflag now = StageOut.skipOut db3)
    (hpresent : hasId db r'.id = true) (hr' : r' ∈ db3) : r' ∈ db := by
  rcases (expansionStage_skipOut h).2.2 with rfl | ⟨p, _, hexp⟩
  · exact hr'
  · have hE := expand_panorama_neighbors_eq_error hexp
    rcases expandNeighbors_error_mem hE r' hr' with hin | ⟨hnot, _⟩
    · exact hin
    · rw [hpresent] at hnot
      exact Bool.noConfusion hnot

theorem expansionStage_skipOut_ids {env : Env} {db : List Row} {i : String}
    {wflag : Bool} {now : Nat} {db3 : List Row}
    (h : expansionStage env db i wflag now = StageOut.skipOut db3) :
    ∀ j ∈ rowIds db, j ∈ rowIds db3 := by
  rcases (expansionStage_skipOut h).2.2 with rfl | ⟨p, _, hexp⟩
  · intro j hj
    exact hj
  · obtain ⟨ext, rfl⟩ :=
      expandNeighbors_error_extend (expand_panorama_neighbors_eq_error hexp)
    intro j hj
    rw [rowIds_append]
    exact List.mem_append_left _ hj

theorem expansionStage_skipOut_safe {env : Env} {db : List Row} {i : String}
    {wflag : Bool} {now : Nat} {db3 : List Row}
    (hsafe : neighborCoordsTotal env)
    (h : expansionStage env db i wflag now = StageOut.skipOut db3) :
    db3 = db := by
  rcases (expansionStage_skipOut h).2.2 with rfl | ⟨p, hfp, hexp⟩
  · rfl
  · exfalso
    refine expandNeighbors_ne_error ?_ (expand_panorama_neighbors_eq_error hexp)
    intro nb hnb
    obtain ⟨hlat, hlon⟩ := hsafe i p hfp nb hnb
    rcases hla : nb.lat with _ | la
    · exact absurd hla hlat
    rcases hlo : nb.lon with _ | lo
    · exact absurd hlo hlon
    exact ⟨env.contains la lo, rfl⟩

theorem boundaryStage_through_rowIds {contains : Int → Int → Bool} {db : List Row}
    {row : Row} {now : Nat} {db1 : List Row} {wflag : Bool}
    (h : boundaryStage contains db row now = BoundaryOut.through db1 wflag) :
    rowIds db1 = rowIds db := by
  rcases boundaryStage_through h with ⟨_, rfl⟩ | ⟨_, _, _, rfl⟩
  · rfl
  · exact rowIds_setWithin db row.id true now

theorem metadataStage_ok_rowIds {env : Env} {db : List Row} {i : String} {now : Nat}
    {db2 : List Row} (h : metadataStage env db i now = StageOut.ok db2) :
    rowIds db2 = rowIds db := by
  rcases metadataStage_ok h with ⟨r, _, ⟨_, rfl⟩ | ⟨_, p, _, rfl⟩⟩
  · rfl
  · rw [rowIds_setMetaPopulated, rowIds_save]

/-- Shape of a continuing iteration: either the full fall-through happened
(`processed_count` is incremented, the skip set untouched) or one of the
skip-and-continue branches ran (`processed_count` unchanged, the selected id
added to the skip set, and the set of row ids never shrinking — it can grow
when a mid-expansion raise leaves already-inserted neighbors behind). -/
theorem crawlStep_next {env : Env} {now : Nat} {s s' : CrawlState}
    (h : crawlStep env now s = StepResult.next s') :
    (∃ db3, s' = ⟨db3, s.skip, s.processed + 1⟩) ∨
      (∃ row db', frontierSelect s.db s.skip = some row ∧
        s' = ⟨db', insertSkip s.skip row.id, s.processed⟩ ∧
        ∀ j ∈ rowIds s.db, j ∈ rowIds db') := by
  unfold crawlStep at h
  split at h
  · exact StepResult.noConfusion h
  · rename_i row hsel
    split at h
    · exact StepResult.noConfusion h
    · rename_i db1 hb
      obtain ⟨_, _, hdb1⟩ := boundaryStage_skipOut hb
      simp only [StepResult.next.injEq] at h
      refine Or.inr ⟨row, db1, hsel, h.symm, ?_⟩
      rw [hdb1, rowIds_setWithin]
      exact fun j hj => hj
    · rename_i db1 wflag hb
      split at h
      · exact StepResult.noConfusion h
      · rename_i db2 hm
        obtain ⟨hdb2, _⟩ := metadataStage_skipOut hm
        simp only [StepResult.next.injEq] at h
        refine Or.inr ⟨row, db2, hsel, h.symm, ?_⟩
        rw [hdb2, boundaryStage_through_rowIds hb]
        exact fun j hj => hj
      · rename_i db2 hm
        split at h
        · exact StepResult.noConfusion h
        · rename_i db3 he
          simp only [StepResult.next.injEq] at h
          refine Or.inr ⟨row, db3, hsel, h.symm, ?_⟩
          intro j hj
          refine expansionStage_skipOut_ids he j ?_
          rw [metadataStage_ok_rowIds hm, boundaryStage_through_rowIds hb]
          exact hj
        · rename_i db3 he
          simp only [StepResult.next.injEq] at h
          exact Or.inl ⟨db3, h.symm⟩

/-- Under the neighbor-coordinate side condition no expansion can raise, so a
skip iteration leaves the row ids exactly unchanged. -/
theorem crawlStep_next_safe {env : Env} {now : Nat} {s s' : CrawlState}
    (hsafe : neighborCoordsTotal env)
    (h : crawlStep env now s = StepResult.next s') :
    (∃ db3, s' = ⟨db3, s.skip, s.processed + 1⟩) ∨
      (∃ row db', frontierSelect s.db s.skip = some row ∧
        s' = ⟨db', insertSkip s.skip row.id, s.processed⟩ ∧
        rowIds db' = rowIds s.db) := by
  unfold crawlStep at h
  split at h
  · exact StepResult.noConfusion h
  · rename_i row hsel
    split at h
    · exact StepResult.noConfusion h
    · rename_i db1 hb
      obtain ⟨_, _, hdb1⟩ := boundaryStage_skipOut hb
      simp only [StepResult.next.injEq] at h
      refine Or.inr ⟨row, db1, hsel, h.symm, ?_⟩
      rw [hdb1]
      exact rowIds_setWithin s.db row.id false now
    · rename_i db1 wflag hb
      split at h
      · exact StepResult.noConfusion h
      · rename_i db2 hm
        obtain ⟨hdb2, _⟩ := metadataStage_skipOut hm
        simp only [StepResult.next.injEq] at h
        refine Or.inr ⟨row, db2, hsel, h.symm, ?_⟩
        rw [hdb2]
        exact boundaryStage_through_rowIds hb
      · rename_i db2 hm
        split at h
        · exact StepResult.noConfusion h
        · rename_i db3 he
          have hdb3 := expansionStage_skipOut_safe hsafe he
          simp only [StepResult.next.injEq] at h
          refine Or.inr ⟨row, db3, hsel, h.symm, ?_⟩
          rw [hdb3, metadataStage_ok_rowIds hm]
          exact boundaryStage_through_rowIds hb
        · rename_i db3 he
          simp only [StepResult.next.injEq] at h
          exact Or.inl ⟨db3, h.symm⟩


theorem insertSkip_subset {skip : List String} {i j : String} (h : j ∈ skip) :
    j ∈ insertSkip skip i := by
  unfold insertSkip
  split
  · exact h
  · exact List.mem_append_left _ h

theorem crawlStep_skip_mono {env : Env} {now : Nat} {s s' : CrawlState}
    (h : crawlStep env now s = StepResult.next s') :
    ∀ i ∈ s.skip, i ∈ s'.skip := by
  rcases crawlStep_next h with ⟨db3, rfl⟩ | ⟨row, db', _, rfl, _⟩
  · intro i hi; exact hi
  · intro i hi; exact insertSkip_subset hi

theorem crawlStep_inc_skip_eq {env : Env} {now : Nat} {s s' : CrawlState}
    (h : crawlStep env now s = StepResult.next s')
    (hp : s'.processed = s.processed + 1) : s'.skip = s.skip := by
  rcases crawlStep_next h with ⟨db3, rfl⟩ | ⟨row, db', _, rfl, _⟩
  · rfl
  · exact absurd hp (by simp)

/-! ### Termination of the iteration loop -/

theorem length_filter_le {α : Type _} {p q : α → Bool}
    (hpq : ∀ x, q x = true → p x = true) :
    ∀ l : List α, (l.filter q).length ≤ (l.filter p).length := by
  intro l
  induction l with
  | nil => simp
  | cons x rest ih =>
    by_cases hq : q x = true
    · rw [List.filter_cons_of_pos hq, List.filter_cons_of_pos (hpq x hq)]
      simpa using ih
    · rw [List.filter_cons_of_neg (by simpa using hq)]
      by_cases hp : p x = true
      · rw [List.filter_cons_of_pos hp]
        exact le_trans ih (by simp)
      · rw [List.filter_cons_of_neg (by simpa using hp)]
        exact ih

theorem length_filter_lt {α : Type _} {p q : α → Bool}
    (hpq : ∀ x, q x = true → p x = true) :
    ∀ {l : List α} {a : α}, a ∈ l → p a = true → q a = false →
      (l.filter q).length < (l.filter p).length := by
  intro l
  induction l with
  | nil => intro a ha _ _; simp at ha
  | cons x rest ih =>
    intro a ha hpa hqa
    rcases List.mem_cons.mp ha with rfl | ha
    · rw [List.filter_cons_of_pos hpa, List.filter_cons_of_neg (by simp [hqa])]
      simp only [List.length_cons]
      exact Nat.lt_succ_of_le (length_filter_le hpq rest)
    · by_cases hq : q x = true
      · rw [List.filter_cons_of_pos hq, List.filter_cons_of_pos (hpq x hq)]
        simp only [List.length_cons]
        exact Nat.succ_lt_succ (ih ha hpa hqa)
      · rw [List.filter_cons_of_neg (by simpa using hq)]
        by_cases hp : p x = true
        · rw [List.filter_cons_of_pos hp]
          simp only [List.length_cons]
          exact Nat.lt_succ_of_lt (ih ha hpa hqa)
        · rw [List.filter_cons_of_neg (by simpa using hp)]
          exact ih ha hpa hqa

theorem unskipped_decrease {s s' : CrawlState} {row : Row}
    (hids : rowIds s'.db = rowIds s.db)
    (hsk : s'.skip = insertSkip s.skip row.id)
    (hrow : row.id ∈ rowIds s.db) (hns : row.id ∉ s.skip) :
    unskippedCount s' < unskippedCount s := by
  unfold unskippedCount
  rw [hids, hsk]
  unfold insertSkip
  rw [if_neg hns]
  refine length_filter_lt ?_ (List.mem_dedup.mpr hrow) ?_ ?_
  · intro x hx
    rw [decide_eq_true_iff] at hx ⊢
    intro hc
    exact hx (List.mem_append_left _ hc)
  · rw [decide_eq_true_iff]
    exact hns
  · rw [decide_eq_false_iff_not]
    intro hc
    exact hc (List.mem_append_right _ (List.mem_singleton_self _))

theorem unskipped_pos {s : CrawlState} {row : Row}
    (hrow : row.id ∈ rowIds s.db) (hns : row.id ∉ s.skip) :
    0 < unskippedCount s := by
  unfold unskippedCount
  apply List.length_pos_of_mem
  exact List.mem_filter.mpr ⟨List.mem_dedup.mpr hrow, decide_eq_true hns⟩

theorem fueledLoop_terminates (env : Env) (maxNew : Nat)
    (hsafe : neighborCoordsTotal env) :
    ∀ (k m clock : Nat) (s : CrawlState),
      maxNew - s.processed ≤ k → unskippedCount s ≤ m →
      ∃ fuel, (fueledLoop env maxNew fuel clock s).isSome = true := by
  intro k
  induction k with
  | zero =>
    intro m clock s hk _
    refine ⟨1, ?_⟩
    have hguard : ¬ s.processed < maxNew := by omega
    simp [fueledLoop, hguard]
  | succ k ihk =>
    intro m
    induction m with
    | zero =>
      intro clock s hk hm
      by_cases hguard : s.processed < maxNew
      · rcases hstep : crawlStep env clock s with _ | _ | s1
        · exact ⟨1, by simp [fueledLoop, hguard, hstep]⟩
        · exact ⟨1, by simp [fueledLoop, hguard, hstep]⟩
        · rcases crawlStep_next_safe hsafe hstep with ⟨db3, rfl⟩ | ⟨row, db', hsel, rfl, hids⟩
          · obtain ⟨fuel, hf⟩ := ihk (unskippedCount ⟨db3, s.skip, s.processed + 1⟩)
              (clock + 1) ⟨db3, s.skip, s.processed + 1⟩
              (by show maxNew - (s.processed + 1) ≤ k; omega) le_rfl
            exact ⟨fuel + 1, by simp [fueledLoop, hguard, hstep, hf]⟩
          · exfalso
            rcases frontierSelect_mem hsel with ⟨hrowmem, hrowskip, _⟩
            have := unskipped_pos (mem_rowIds_of_mem hrowmem) hrowskip
            omega
      · exact ⟨1, by simp [fueledLoop, hguard]⟩
    | succ m ihm =>
      intro clock s hk hm
      by_cases hguard : s.processed < maxNew
      · rcases hstep : crawlStep env clock s with _ | _ | s1
        · exact ⟨1, by simp [fueledLoop, hguard, hstep]⟩
        · exact ⟨1, by simp [fueledLoop, hguard, hstep]⟩
        · rcases crawlStep_next_safe hsafe hstep with ⟨db3, rfl⟩ | ⟨row, db', hsel, rfl, hids⟩
          · obtain ⟨fuel, hf⟩ := ihk (unskippedCount ⟨db3, s.skip, s.processed + 1⟩)
              (clock + 1) ⟨db3, s.skip, s.processed + 1⟩
              (by show maxNew - (s.processed + 1) ≤ k; omega) le_rfl
            exact ⟨fuel + 1, by simp [fueledLoop, hguard, hstep, hf]⟩
          · rcases frontierSelect_mem hsel with ⟨hrowmem, hrowskip, _⟩
            have hdec : unskippedCount ⟨db', insertSkip s.skip row.id, s.processed⟩ <
                unskippedCount s :=
              unskipped_decrease hids rfl (mem_rowIds_of_mem hrowmem) hrowskip
            obtain ⟨fuel, hf⟩ := ihm (clock + 1) ⟨db', insertSkip s.skip row.id, s.processed⟩
              hk (by omega)
            exact ⟨fuel + 1, by simp [fueledLoop, hguard, hstep, hf]⟩
      · exact ⟨1, by simp [fueledLoop, hguard]⟩

theorem mem_updateRow_iff_of_ne {db : List Row} {t : String} {f : Row → Row} {r' : Row}
    (hf : ∀ x, (f x).id = x.id) (hne : r'.id ≠ t) :
    r' ∈ updateRow db t f ↔ r' ∈ db := by
  constructor
  · intro h
    rcases mem_updateRow.mp h with ⟨r0, hr0, heq⟩
    by_cases hid : r0.id = t
    · rw [if_pos hid] at heq
      exact absurd (by rw [heq, hf r0, hid]) hne
    · rw [if_neg hid] at heq
      exact heq ▸ hr0
  · intro h
    exact mem_updateRow_of_ne h (by
      intro hc
      exact hne hc)

theorem withinOrigin_refl (db : List Row) : withinOrigin db db :=
  fun r' h => Or.inl ⟨r', h, rfl, rfl⟩

theorem withinOrigin_trans {a b c : List Row}
    (h1 : withinOrigin a b) (h2 : withinOrigin b c) : withinOrigin a c := by
  intro r' hr'
  rcases h2 r' hr' with ⟨r1, hr1, hid, hwb⟩ | hne
  · rcases h1 r1 hr1 with ⟨r0, hr0, hid0, hwb0⟩ | hne1
    · exact Or.inl ⟨r0, hr0, hid.trans hid0, hwb.trans hwb0⟩
    · exact Or.inr (hwb ▸ hne1)
  · exact Or.inr hne

theorem withinOrigin_updateRow {db : List Row} {t : String} {f : Row → Row}
    (hf : ∀ x, (f x).id = x.id ∧ (f x).within_boundary = x.within_boundary) :
    withinOrigin db (updateRow db t f) := by
  intro r' hr'
  rcases mem_updateRow.mp hr' with ⟨r0, hr0, heq⟩
  by_cases hid : r0.id = t
  · rw [if_pos hid] at heq
    exact Or.inl ⟨r0, hr0, heq ▸ (hf r0).1, heq ▸ (hf r0).2⟩
  · rw [if_neg hid] at heq
    exact Or.inl ⟨r0, hr0, heq ▸ rfl, heq ▸ rfl⟩

theorem withinOrigin_setWithin {db : List Row} {i : String} {w : Bool} {now : Nat} :
    withinOrigin db (setWithin db i w now) := by
  intro r' hr'
  rcases mem_updateRow.mp hr' with ⟨r0, hr0, heq⟩
  by_cases hid : r0.id = i
  · rw [if_pos hid] at heq
    refine Or.inr ?_
    rw [heq]
    simp
  · rw [if_neg hid] at heq
    exact Or.inl ⟨r0, hr0, heq ▸ rfl, heq ▸ rfl⟩

theorem withinOrigin_expandNeighbors {contains : Int → Int → Bool} {now : Nat}
    {nbs : List Neighbor} {db db1 : List Row} {n : Nat}
    (h : expandNeighbors contains db nbs now = Except.ok (db1, n)) :
    withinOrigin db db1 := by
  intro r' hr'
  rcases expandNeighbors_mem h r' hr' with hin | ⟨_, nb, _, w, _, hfr⟩
  · exact Or.inl ⟨r', hin, rfl, rfl⟩
  · refine Or.inr ?_
    rw [hfr]
    simp [freshRow]

theorem withinOrigin_expandNeighbors_error {contains : Int → Int → Bool} {now : Nat}
    {nbs : List Neighbor} {db db1 : List Row}
    (h : expandNeighbors contains db nbs now = Except.error db1) :
    withinOrigin db db1 := by
  intro r' hr'
  rcases expandNeighbors_error_mem h r' hr' with hin | ⟨_, nb, _, w, _, hfr⟩
  · exact Or.inl ⟨r', hin, rfl, rfl⟩
  · refine Or.inr ?_
    rw [hfr]
    simp [freshRow]

theorem seedPhase_nonempty {contains : Int → Int → Bool} {cp : Option (Int × Int)}
    {find : Int × Int → Int → Option Panorama} {radius : Int} {extraRadii : List Int}
    {db : List Row} {now : Nat} (h : db ≠ []) :
    seedPhase contains cp find radius extraRadii db now = Except.ok db := by
  unfold seedPhase
  rw [if_neg (by simpa [List.isEmpty_iff] using h)]

theorem findFirstRadius_none {find : Int → Option Panorama} :
    ∀ {radii : List Int}, (∀ r ∈ radii, find r = none) →
      findFirstRadius find radii = none := by
  intro radii
  induction radii with
  | nil => intro _; rfl
  | cons r rest ih =>
    intro h
    unfold findFirstRadius
    rw [h r (List.mem_cons_self r rest)]
    exact ih (fun x hx => h x (List.mem_cons_of_mem r hx))

theorem findFirstRadius_first {find : Int → Option Panorama} :
    ∀ {pre : List Int} {r0 : Int} {post : List Int} {p : Panorama},
      (∀ x ∈ pre, find x = none) → find r0 = some p →
      findFirstRadius find (pre ++ r0 :: post) = some p := by
  intro pre
  induction pre with
  | nil =>
    intro r0 post p _ h
    rw [List.nil_append]
    unfold findFirstRadius
    rw [h]
  | cons x rest ih =>
    intro r0 post p hpre h
    rw [List.cons_append]
    unfold findFirstRadius
    rw [hpre x (List.mem_cons_self x rest)]
    exact ih (fun y hy => hpre y (List.mem_cons_of_mem x hy)) h

theorem mem_of_mem_updateRow_of_ne {db : List Row} {t : String} {f : Row → Row} {r' : Row}
    (h : r' ∈ updateRow db t f) (hf : ∀ x, (f x).id = x.id) (hne : r'.id ≠ t) :
    r' ∈ db := by
  rcases mem_updateRow.mp h with ⟨r0, hr0, heq⟩
  by_cases hid : r0.id = t
  · rw [if_pos hid] at heq
    exact absurd (by rw [heq, hf r0, hid]) hne
  · rw [if_neg hid] at heq
    exact heq ▸ hr0

theorem withinOrigin_save {db : List Row} {p : Panorama} {now : Nat} :
    withinOrigin db (save_panorama_metadata_to_db db p now) := by
  unfold save_panorama_metadata_to_db
  exact withinOrigin_updateRow (fun x => ⟨rfl, rfl⟩)

theorem withinOrigin_setMetaPopulated {db : List Row} {i : String} {now : Nat} :
    withinOrigin db (setMetaPopulated db i now) := by
  unfold setMetaPopulated
  exact withinOrigin_updateRow (fun x => ⟨rfl, rfl⟩)

theorem withinOrigin_markExpanded {db : List Row} {i : String} {now : Nat} :
    withinOrigin db (markExpanded db i now) := by
  unfold markExpanded
  exact withinOrigin_updateRow (fun x => ⟨rfl, rfl⟩)

theorem metadataStage_ok_withinOrigin {env : Env} {db : List Row} {i : String}
    {now : Nat} {db2 : List Row} (hm : metadataStage env db i now = StageOut.ok db2) :
    withinOrigin db db2 := by
  rcases metadataStage_ok hm with ⟨r0, _, ⟨_, rfl⟩ | ⟨_, p, _, rfl⟩⟩
  · exact withinOrigin_refl _
  · exact withinOrigin_trans withinOrigin_save withinOrigin_setMetaPopulated

theorem expansionStage_ok_withinOrigin {env : Env} {db : List Row} {i : String}
    {wflag : Bool} {now : Nat} {db3 : List Row}
    (he : expansionStage env db i wflag now = StageOut.ok db3) :
    withinOrigin db db3 := by
  rcases expansionStage_ok he with ⟨_, rfl⟩ | ⟨_, r0, _, ⟨_, rfl⟩ | ⟨_, p, n, _, hexp⟩⟩
  · exact withinOrigin_refl _
  · exact withinOrigin_refl _
  · obtain ⟨db0, hE, rfl⟩ := expand_panorama_neighbors_eq_ok hexp
    exact withinOrigin_trans (withinOrigin_expandNeighbors hE) withinOrigin_markExpanded

theorem expansionStage_skipOut_withinOrigin {env : Env} {db : List Row} {i : String}
    {wflag : Bool} {now : Nat} {db3 : List Row}
    (he : expansionStage env db i wflag now = StageOut.skipOut db3) :
    withinOrigin db db3 := by
  rcases (expansionStage_skipOut he).2.2 with rfl | ⟨p, _, hexp⟩
  · exact withinOrigin_refl _
  · exact withinOrigin_expandNeighbors_error (expand_panorama_neighbors_eq_error hexp)

theorem crawlStep_withinOrigin {env : Env} {now : Nat} {s s' : CrawlState}
    (h : crawlStep env now s = StepResult.next s') :
    withinOrigin s.db s'.db := by
  unfold crawlStep at h
  split at h
  · exact StepResult.noConfusion h
  · rename_i row hsel
    split at h
    · exact StepResult.noConfusion h
    · rename_i db1 hb
      obtain ⟨_, _, hdb1⟩ := boundaryStage_skipOut hb
      simp only [StepResult.next.injEq] at h
      subst h
      subst hdb1
      exact withinOrigin_setWithin
    · rename_i db1 wflag hb
      have hwb1 : withinOrigin s.db db1 := by
        rcases boundaryStage_through hb with ⟨_, rfl⟩ | ⟨_, _, _, rfl⟩
        · exact withinOrigin_refl _
        · exact withinOrigin_setWithin
      split at h
      · exact StepResult.noConfusion h
      · rename_i db2 hm
        obtain ⟨hdb2, _⟩ := metadataStage_skipOut hm
        simp only [StepResult.next.injEq] at h
        subst h
        subst hdb2
        exact hwb1
      · rename_i db2 hm
        have hwb2 : withinOrigin s.db db2 :=
          withinOrigin_trans hwb1 (metadataStage_ok_withinOrigin hm)
        split at h
        · exact StepResult.noConfusion h
        · rename_i db3 he
          simp only [StepResult.next.injEq] at h
          subst h
          exact withinOrigin_trans hwb2 (expansionStage_skipOut_withinOrigin he)
        · rename_i db3 he
          simp only [StepResult.next.injEq] at h
          subst h
          exact withinOrigin_trans hwb2 (expansionStage_ok_withinOrigin he)

theorem metadataStage_ok_mem_of_ne {env : Env} {db : List Row} {i : String}
    {now : Nat} {db2 : List Row} {r' : Row}
    (hm : metadataStage env db i now = StageOut.ok db2)
    (hhon : ∀ j p, env.findById j = Except.ok (some p) → p.id = j)
    (hne : r'.id ≠ i) (h : r' ∈ db2) : r' ∈ db := by
  rcases metadataStage_ok hm with ⟨r0, _, ⟨_, rfl⟩ | ⟨_, p, hfp, rfl⟩⟩
  · exact h
  · have hpid : p.id = i := hhon i p hfp
    unfold setMetaPopulated at h
    have h1 := mem_of_mem_updateRow_of_ne h (fun x => rfl) hne
    simp only [save_panorama_metadata_to_db] at h1
    exact mem_of_mem_updateRow_of_ne h1 (fun x => rfl) (by rw [hpid]; exact hne)

theorem expansionStage_ok_mem_of_ne {env : Env} {db : List Row} {i : String}
    {wflag : Bool} {now : Nat} {db3 : List Row} {r' : Row}
    (he : expansionStage env db i wflag now = StageOut.ok db3)
    (hhon : ∀ j p, env.findById j = Except.ok (some p) → p.id = j)
    (hne : r'.id ≠ i) (hpresent : hasId db r'.id = true)
    (h : r' ∈ db3) : r' ∈ db := by
  rcases expansionStage_ok he with ⟨_, rfl⟩ | ⟨_, r0, _, ⟨_, rfl⟩ | ⟨_, p, n, hfp, hexp⟩⟩
  · exact h
  · exact h
  · have hpid : p.id = i := hhon i p hfp
    obtain ⟨db0, hE, rfl⟩ := expand_panorama_neighbors_eq_ok hexp
    unfold markExpanded at h
    have h1 := mem_of_mem_updateRow_of_ne h (fun x => rfl) (by rw [hpid]; exact hne)
    rcases expandNeighbors_mem hE r' h1 with hin | ⟨hnot, _⟩
    · exact hin
    · rw [hpresent] at hnot
      exact Bool.noConfusion hnot

theorem seedPhase_ok_cases {contains : Int → Int → Bool} {cp : Option (Int × Int)}
    {find : Int × Int → Int → Option Panorama} {radius : Int} {extras : List Int}
    {db : List Row} {now : Nat} {db' : List Row}
    (h : seedPhase contains cp find radius extras db now = Except.ok db') :
    db' = db ∨ ∃ p, db' = insertOrReplace db (seedRow p (contains p.lat p.lon) now) := by
  unfold seedPhase at h
  split at h
  · split at h
    · exact Except.noConfusion h
    · split at h
      · exact Except.noConfusion h
      · rename_i p hfp
        simp only [Except.ok.injEq] at h
        exact Or.inr ⟨p, h.symm⟩
  · simp only [Except.ok.injEq] at h
    exact Or.inl h.symm

/-! ### Claim theorems -/

/-- C1: a row whose `within_boundary` is 0 and whose `neighbors_expanded` is
still 0 keeps both values under every operation of the crawler: seeding is a
no-op on a non-empty store, and one full iteration of the driver (boundary
evaluation, metadata population, expansion) never sets `neighbors_expanded`
on it nor changes its boundary flag — a node is expanded only when its stored
boundary flag is 1, so nodes outside the boundary never drive expansion.
`hhon` states the by-id lookup contract: a returned panorama carries the
requested identifier. -/
theorem c1_outside_rows_never_expanded (env : Env) (now : Nat) (s s' : CrawlState)
    (r : Row)
    (hN : (rowIds s.db).Nodup)
    (hhon : ∀ i p, env.findById i = Except.ok (some p) → p.id = i)
    (hr : r ∈ s.db) (hw : r.within_boundary = some false)
    (he : r.neighbors_expanded = false)
    (hstep : crawlStep env now s = StepResult.next s') :
    (∀ r' ∈ s'.db, r'.id = r.id →
      r'.neighbors_expanded = false ∧ r'.within_boundary = some false) ∧
    (∀ (contains : Int → Int → Bool) (cp : Option (Int × Int))
        (find : Int × Int → Int → Option Panorama) (radius : Int) (extras : List Int)
        (now2 : Nat),
      seedPhase contains cp find radius extras s.db now2 = Except.ok s.db) := by
  refine ⟨?_, ?_⟩
  swap
  · intro contains cp find radius extras now2
    exact seedPhase_nonempty (List.ne_nil_of_mem hr)
  intro r' hr' hid
  suffices hmem : r' ∈ s.db by
    have hrr : r' = r := nodup_id_unique hN hmem hr hid
    subst hrr
    exact ⟨he, hw⟩
  unfold crawlStep at hstep
  split at hstep
  · exact StepResult.noConfusion hstep
  · rename_i row hsel
    obtain ⟨hrowmem, hrowskip, hrowpred⟩ := frontierSelect_mem hsel
    have hidne : r.id ≠ row.id := by
      intro hc
      have hreq : r = row := nodup_id_unique hN hr hrowmem hc
      rcases hrowpred with hnone | ⟨htrue, _⟩
      · rw [← hreq, hw] at hnone
        exact Option.noConfusion hnone
      · rw [← hreq, hw] at htrue
        simp at htrue
    split at hstep
    · exact StepResult.noConfusion hstep
    · rename_i db1 hb
      obtain ⟨_, _, hdb1⟩ := boundaryStage_skipOut hb
      simp only [StepResult.next.injEq] at hstep
      subst hstep
      subst hdb1
      exact mem_of_mem_updateRow_of_ne hr' (fun x => rfl) (by rw [hid]; exact hidne)
    · rename_i db1 wflag hb
      have h1 : ∀ x : Row, x.id = r.id → x ∈ db1 → x ∈ s.db := by
        rcases boundaryStage_through hb with ⟨_, rfl⟩ | ⟨_, _, _, rfl⟩
        · exact fun x _ hx => hx
        · intro x hxid hx
          exact mem_of_mem_updateRow_of_ne hx (fun y => rfl) (by rw [hxid]; exact hidne)
      have hids1 : rowIds db1 = rowIds s.db := boundaryStage_through_rowIds hb
      split at hstep
      · exact StepResult.noConfusion hstep
      · rename_i db2 hm
        obtain ⟨hdb2, _⟩ := metadataStage_skipOut hm
        simp only [StepResult.next.injEq] at hstep
        subst hstep
        subst hdb2
        exact h1 r' hid hr'
      · rename_i db2 hm
        have h2 : ∀ x : Row, x.id = r.id → x ∈ db2 → x ∈ db1 := by
          intro x hxid hx
          exact metadataStage_ok_mem_of_ne hm hhon (by rw [hxid]; exact hidne) hx
        have hids2 : rowIds db2 = rowIds db1 := metadataStage_ok_rowIds hm
        split at hstep
        · exact StepResult.noConfusion hstep
        · rename_i db3 hex
          simp only [StepResult.next.injEq] at hstep
          subst hstep
          have hpres : hasId db2 r'.id = true := by
            rw [hasId_iff_mem_rowIds, hids2, hids1, hid]
            exact mem_rowIds_of_mem hr
          exact h1 r' hid (h2 r' hid (expansionStage_skipOut_mem hex hpres hr'))
        · rename_i db3 hex
          simp only [StepResult.next.injEq] at hstep
          subst hstep
          have hpres : hasId db2 r'.id = true := by
            rw [hasId_iff_mem_rowIds, hids2, hids1, hid]
            exact mem_rowIds_of_mem hr
          have h3 := expansionStage_ok_mem_of_ne hex hhon
            (by rw [hid]; exact hidne) hpres hr'
          exact h1 r' hid (h2 r' hid h3)

/-- Witness for C1: a store holding an outside row `OUT` and an inside row
`IN`; the driver iteration expands nothing (the by-id lookup raises, so the
selected `IN` is skipped), and the `OUT` row keeps `neighbors_expanded = 0`
and `within_boundary = 0`. -/
theorem c1_outside_rows_never_expanded_witness :
    (⟨"OUT", some 9, some 9, false, some false, false, 1, 1⟩ : Row).neighbors_expanded =
        false ∧
      (⟨"OUT", some 9, some 9, false, some false, false, 1, 1⟩ :
        Row).within_boundary = some false :=
  (c1_outside_rows_never_expanded
    ⟨fun _ _ => true, fun _ => Except.error ()⟩ 3
    ⟨[⟨"OUT", some 9, some 9, false, some false, false, 1, 1⟩,
      ⟨"IN", some 0, some 0, true, some true, false, 2, 2⟩], [], 0⟩
    ⟨[⟨"OUT", some 9, some 9, false, some false, false, 1, 1⟩,
      ⟨"IN", some 0, some 0, true, some true, false, 2, 2⟩], ["IN"], 0⟩
    ⟨"OUT", some 9, some 9, false, some false, false, 1, 1⟩
    (by decide) (fun i p h => Except.noConfusion h)
    (by decide) (by decide) (by decide) (by decide)).1
    ⟨"OUT", some 9, some 9, false, some false, false, 1, 1⟩ (by decide) rfl

/-- C2: the Frontier Selector returns at most one row (it is `Option`-valued);
a returned row is in the store, is not in the run's skip set, satisfies the
frontier condition (boundary unknown, or boundary 1 with metadata or
expansion pending), and is maximal among all candidates under
`ORDER BY created_at DESC, updated_at DESC` — i.e. most recent creation
first, ties broken by most recent update. -/
theorem c2_frontier_selector_correct (db : List Row) (skip : List String) (r : Row)
    (hsel : frontierSelect db skip = some r) :
    r ∈ db ∧ r.id ∉ skip ∧
      (r.within_boundary = none ∨
        (r.within_boundary = some true ∧
          (r.metadata_populated = false ∨ r.neighbors_expanded = false))) ∧
      (∀ c ∈ db, c.id ∉ skip →
        (c.within_boundary = none ∨
          (c.within_boundary = some true ∧
            (c.metadata_populated = false ∨ c.neighbors_expanded = false))) →
        keyLE c r) := by
  rcases frontierSelect_mem hsel with ⟨h1, h2, h3⟩
  refine ⟨h1, h2, h3, ?_⟩
  intro c hc hcs hcp
  exact frontierSelect_maximal hsel c hc (frontierPred_iff.mpr ⟨hcs, hcp⟩)

/-- Witness for C2: between a row created at 1 and a row created at 2 the
selector returns the row created most recently, and that row is in the
store. -/
theorem c2_frontier_selector_correct_witness :
    (⟨"B", some 0, some 0, false, some true, false, 2, 3⟩ : Row) ∈
      [(⟨"A", some 0, some 0, false, some true, false, 1, 5⟩ : Row),
        ⟨"B", some 0, some 0, false, some true, false, 2, 3⟩] :=
  (c2_frontier_selector_correct
    [⟨"A", some 0, some 0, false, some true, false, 1, 5⟩,
      ⟨"B", some 0, some 0, false, some true, false, 2, 3⟩] []
    ⟨"B", some 0, some 0, false, some true, false, 2, 3⟩ (by decide)).1

/-- C3: when the by-identifier lookup for the selected node fails — it
raises, or returns nothing — in the metadata step or in the expansion step,
the iteration adds the node's id to the run's skip set, leaves the store and
`processed_count` unchanged, and continues (the step result is `next`, not an
abort); the selector never returns an id that is in the skip set and the
skip set only grows, so the node is never retried within the run; and an
iteration that increments `processed_count` leaves the skip set untouched
(the count increments only when every step succeeded). -/
theorem c3_lookup_failure_skips (env : Env) (now : Nat) (s : CrawlState) (row : Row)
    (hN : (rowIds s.db).Nodup)
    (hsel : frontierSelect s.db s.skip = some row)
    (hwb : row.within_boundary = some true)
    (hcase : row.metadata_populated = false ∨
      (row.metadata_populated = true ∧ row.neighbors_expanded = false))
    (hfail : env.findById row.id = Except.error () ∨
      env.findById row.id = Except.ok none) :
    crawlStep env now s = StepResult.next ⟨s.db, s.skip ++ [row.id], s.processed⟩ ∧
    row.id ∉ s.skip ∧
    (∀ db2 skip2 r2, row.id ∈ skip2 → frontierSelect db2 skip2 = some r2 →
      r2.id ≠ row.id) ∧
    (∀ (env2 : Env) (now2 : Nat) (t t' : CrawlState),
      crawlStep env2 now2 t = StepResult.next t' → ∀ i ∈ t.skip, i ∈ t'.skip) ∧
    (∀ (env2 : Env) (now2 : Nat) (t t' : CrawlState),
      crawlStep env2 now2 t = StepResult.next t' →
      t'.processed = t.processed + 1 → t'.skip = t.skip) := by
  obtain ⟨hrowmem, hrowskip, _⟩ := frontierSelect_mem hsel
  have hg : getRow s.db row.id = some row := getRow_of_mem hN hrowmem
  have hb : boundaryStage env.contains s.db row now = BoundaryOut.through s.db true := by
    unfold boundaryStage
    rw [hwb]
  refine ⟨?_, hrowskip, ?_, ?_, ?_⟩
  · rcases hcase with hmetaf | ⟨hmt, hexpf⟩
    · have hm : metadataStage env s.db row.id now = StageOut.skipOut s.db := by
        unfold metadataStage
        simp only [hg]
        rw [if_neg (by rw [hmetaf]; exact Bool.false_ne_true)]
        rcases hfail with hf | hf <;> simp only [hf]
      unfold crawlStep
      simp only [hsel, hb, hm]
      unfold insertSkip
      rw [if_neg hrowskip]
    · have hm : metadataStage env s.db row.id now = StageOut.ok s.db := by
        unfold metadataStage
        simp only [hg]
        rw [if_pos hmt]
      have hex : expansionStage env s.db row.id true now = StageOut.skipOut s.db := by
        unfold expansionStage
        rw [if_pos rfl]
        simp only [hg]
        rw [if_neg (by rw [hexpf]; exact Bool.false_ne_true)]
        rcases hfail with hf | hf <;> simp only [hf]
      unfold crawlStep
      simp only [hsel, hb, hm, hex]
      unfold insertSkip
      rw [if_neg hrowskip]
  · intro db2 skip2 r2 hin hsel2 hc
    obtain ⟨_, hnotin, _⟩ := frontierSelect_mem hsel2
    exact hnotin (hc ▸ hin)
  · intro env2 now2 t t' h
    exact crawlStep_skip_mono h
  · intro env2 now2 t t' h hp
    exact crawlStep_inc_skip_eq h hp

/-- Witness for C3: a single inside row `A` with metadata pending; the by-id
lookup always raises; the iteration turns into a skip of `A` with
`processed_count` still 0. -/
theorem c3_lookup_failure_skips_witness :
    crawlStep ⟨fun _ _ => true, fun _ => Except.error ()⟩ 7
        ⟨[⟨"A", some 0, some 0, false, some true, false, 5, 5⟩], [], 0⟩ =
      StepResult.next ⟨[⟨"A", some 0, some 0, false, some true, false, 5, 5⟩],
        [] ++ ["A"], 0⟩ ∧
    "A" ∉ ([] : List String) :=
  ⟨(c3_lookup_failure_skips ⟨fun _ _ => true, fun _ => Except.error ()⟩ 7
      ⟨[⟨"A", some 0, some 0, false, some true, false, 5, 5⟩], [], 0⟩
      ⟨"A", some 0, some 0, false, some true, false, 5, 5⟩
      (by decide) (by decide) rfl (Or.inl rfl) (Or.inl rfl)).1,
    (c3_lookup_failure_skips ⟨fun _ _ => true, fun _ => Except.error ()⟩ 7
      ⟨[⟨"A", some 0, some 0, false, some true, false, 5, 5⟩], [], 0⟩
      ⟨"A", some 0, some 0, false, some true, false, 5, 5⟩
      (by decide) (by decide) rfl (Or.inl rfl) (Or.inl rfl)).2.1⟩

/-- C4: given a source panorama and its neighbor list, the Expansion Step
evaluates the Geometry Gate for each neighbor and inserts-if-absent a row
with `metadata_populated = 0`, `neighbors_expanded = 0` and `within_boundary`
from the gate result; afterwards the source's rows carry
`neighbors_expanded = 1`; every neighbor id is present afterwards; rows
already present (other than the source) are preserved; and the returned
count is exactly the number of distinct neighbor ids that were previously
unknown. -/
theorem c4_expansion_step {contains : Int → Int → Bool} {db : List Row} {p : Panorama}
    {now : Nat} {db' : List Row} {n : Nat}
    (hexp : expand_panorama_neighbors contains db p now = Except.ok (db', n)) :
    n = ((p.neighbors.map Neighbor.id).toFinset \ (rowIds db).toFinset).card ∧
    (∀ nb ∈ p.neighbors, hasId db' nb.id = true) ∧
    (∀ r' ∈ db', hasId db r'.id = false → r'.id ≠ p.id →
      ∃ nb ∈ p.neighbors, ∃ w, gateEval contains nb.lat nb.lon = some w ∧
        r'.id = nb.id ∧ r'.lat = nb.lat ∧ r'.lon = nb.lon ∧
        r'.metadata_populated = false ∧ r'.within_boundary = some w ∧
        r'.neighbors_expanded = false ∧ r'.created_at = now ∧ r'.updated_at = now) ∧
    (∀ r' ∈ db', r'.id = p.id → r'.neighbors_expanded = true) ∧
    (∀ r ∈ db, r.id ≠ p.id → r ∈ db') := by
  obtain ⟨db1, hE, rfl⟩ := expand_panorama_neighbors_eq_ok hexp
  refine ⟨expandNeighbors_count hE, ?_, ?_, ?_, ?_⟩
  · intro nb hnb
    rw [hasId_iff_mem_rowIds, rowIds_markExpanded]
    exact hasId_iff_mem_rowIds.mp (expandNeighbors_all_present hE nb hnb)
  · intro r' hr' hfresh hne
    have h1 := mem_of_mem_updateRow_of_ne hr' (fun x => rfl) hne
    rcases expandNeighbors_mem hE r' h1 with hin | ⟨_, nb, hnb, w, hg, hfr⟩
    · have hx := hasId_iff.mpr ⟨r', hin, rfl⟩
      rw [hfresh] at hx
      exact Bool.noConfusion hx
    · subst hfr
      exact ⟨nb, hnb, w, hg, rfl, rfl, rfl, rfl, rfl, rfl, rfl, rfl⟩
  · intro r' hr' hid
    rcases mem_updateRow.mp hr' with ⟨r0, hr0, heq⟩
    by_cases h0 : r0.id = p.id
    · rw [if_pos h0] at heq
      rw [heq]
    · rw [if_neg h0] at heq
      exact absurd (heq ▸ hid) h0
  · intro r hr hne
    obtain ⟨ext, hpre⟩ := expandNeighbors_extend hE
    exact mem_updateRow_of_ne (hpre ▸ List.mem_append_left ext hr) hne

/-- Witness for C4: a source `S` with one fresh neighbor `N1` and one already
known neighbor `A`; the returned new-neighbor count is 1. -/
theorem c4_expansion_step_witness :
    1 = ((((⟨"S", 0, 0, [⟨"N1", some 1, some 1⟩, ⟨"A", some 5, some 5⟩],
          none, none, none, none⟩ : Panorama)).neighbors.map Neighbor.id).toFinset \
        (rowIds [(⟨"S", some 0, some 0, false, some true, false, 1, 1⟩ : Row),
          ⟨"A", some 5, some 5, false, some false, false, 1, 1⟩]).toFinset).card :=
  (c4_expansion_step (show expand_panorama_neighbors (fun _ _ => true)
    [⟨"S", some 0, some 0, false, some true, false, 1, 1⟩,
      ⟨"A", some 5, some 5, false, some false, false, 1, 1⟩]
    ⟨"S", 0, 0, [⟨"N1", some 1, some 1⟩, ⟨"A", some 5, some 5⟩],
      none, none, none, none⟩ 9 =
    Except.ok ([⟨"S", some 0, some 0, false, some true, true, 1, 9⟩,
      ⟨"A", some 5, some 5, false, some false, false, 1, 1⟩,
      ⟨"N1", some 1, some 1, false, some true, false, 9, 9⟩], 1) by decide)).1

/-- C5: insert-if-absent is idempotent on re-discovery: row ids stay
duplicate-free, rows other than the source are preserved as they are, and
running the Expansion Step again over the same neighbor list inserts nothing
— it returns the store unchanged apart from re-marking the source, with a
new-neighbor count of zero. -/
theorem c5_rediscovery_idempotent {contains : Int → Int → Bool} {db : List Row}
    {p : Panorama} {now now2 : Nat} {dbOut : List Row} {n : Nat}
    (hN : (rowIds db).Nodup)
    (hexp : expand_panorama_neighbors contains db p now = Except.ok (dbOut, n)) :
    (rowIds dbOut).Nodup ∧
    (∀ r ∈ db, r.id ≠ p.id → r ∈ dbOut) ∧
    expand_panorama_neighbors contains dbOut p now2 =
      Except.ok (markExpanded dbOut p.id now2, 0) := by
  obtain ⟨db1, hE, rfl⟩ := expand_panorama_neighbors_eq_ok hexp
  refine ⟨?_, ?_, ?_⟩
  · rw [rowIds_markExpanded]
    exact expandNeighbors_nodup hE hN
  · intro r hr hne
    obtain ⟨ext, hpre⟩ := expandNeighbors_extend hE
    exact mem_updateRow_of_ne (hpre ▸ List.mem_append_left ext hr) hne
  · have hall : ∀ nb ∈ p.neighbors, hasId (markExpanded db1 p.id now) nb.id = true := by
      intro nb hnb
      rw [hasId_iff_mem_rowIds, rowIds_markExpanded]
      exact hasId_iff_mem_rowIds.mp (expandNeighbors_all_present hE nb hnb)
    have hgate := expandNeighbors_gate_some hE
    have h0 : expandNeighbors contains (markExpanded db1 p.id now) p.neighbors now2 =
        Except.ok (markExpanded db1 p.id now, 0) :=
      expandNeighbors_of_all_present hall hgate
    unfold expand_panorama_neighbors
    rw [h0]

/-- Witness for C5: re-expanding the store produced by the C4 scenario
inserts nothing and returns count 0. -/
theorem c5_rediscovery_idempotent_witness :
    expand_panorama_neighbors (fun _ _ => true)
      [⟨"S", some 0, some 0, false, some true, true, 1, 9⟩,
        ⟨"A", some 5, some 5, false, some false, false, 1, 1⟩,
        ⟨"N1", some 1, some 1, false, some true, false, 9, 9⟩]
      ⟨"S", 0, 0, [⟨"N1", some 1, some 1⟩, ⟨"A", some 5, some 5⟩],
        none, none, none, none⟩ 10 =
    Except.ok (markExpanded
      [⟨"S", some 0, some 0, false, some true, true, 1, 9⟩,
        ⟨"A", some 5, some 5, false, some false, false, 1, 1⟩,
        ⟨"N1", some 1, some 1, false, some true, false, 9, 9⟩] "S" 10, 0) :=
  (c5_rediscovery_idempotent (by decide)
    (show expand_panorama_neighbors (fun _ _ => true)
      [⟨"S", some 0, some 0, false, some true, false, 1, 1⟩,
        ⟨"A", some 5, some 5, false, some false, false, 1, 1⟩]
      ⟨"S", 0, 0, [⟨"N1", some 1, some 1⟩, ⟨"A", some 5, some 5⟩],
        none, none, none, none⟩ 9 =
      Except.ok ([⟨"S", some 0, some 0, false, some true, true, 1, 9⟩,
        ⟨"A", some 5, some 5, false, some false, false, 1, 1⟩,
        ⟨"N1", some 1, some 1, false, some true, false, 9, 9⟩], 1) by decide)).2.2

/-- C6: seeding runs exactly when the store has zero rows — on a non-empty
store `seedPhase` returns the store unchanged; with an empty store it tries
the primary radius and then each fallback radius in order, aborts with the
non-zero exit code 1 when every radius fails, and on the first succeeding
radius inserts exactly the found panorama as a row whose boundary membership
is already evaluated (`within_boundary` is non-NULL). -/
theorem c6_seeding_behaviour (contains : Int → Int → Bool) (cp : Option (Int × Int))
    (find : Int × Int → Int → Option Panorama) (radius : Int) (extraRadii : List Int)
    (db : List Row) (now : Nat) :
    (db ≠ [] → seedPhase contains cp find radius extraRadii db now = Except.ok db) ∧
    (∀ c, db = [] → cp = some c →
      (∀ x ∈ radiiList radius extraRadii, find c x = none) →
      seedPhase contains cp find radius extraRadii db now = Except.error 1 ∧
        (1 : Nat) ≠ 0) ∧
    (∀ c p pre r0 post, db = [] → cp = some c →
      radiiList radius extraRadii = pre ++ r0 :: post →
      (∀ x ∈ pre, find c x = none) → find c r0 = some p →
      seedPhase contains cp find radius extraRadii db now =
        Except.ok [seedRow p (contains p.lat p.lon) now] ∧
      (seedRow p (contains p.lat p.lon) now).within_boundary =
        some (contains p.lat p.lon)) := by
  refine ⟨?_, ?_, ?_⟩
  · intro h
    exact seedPhase_nonempty h
  · intro c hdb hcp hnone
    subst hdb
    refine ⟨?_, by decide⟩
    unfold seedPhase
    simp only [hcp]
    rw [findFirstRadius_none hnone]
    rfl
  · intro c p pre r0 post hdb hcp hradii hpre hfind
    subst hdb
    refine ⟨?_, rfl⟩
    unfold seedPhase
    simp only [hcp, hradii]
    rw [findFirstRadius_first hpre hfind]
    rfl

/-- Witness for C6: with centerpoint (0,0), primary radius 50 failing and
fallback radius 100 succeeding, the empty store is seeded with exactly the
found panorama, boundary evaluated immediately. -/
theorem c6_seeding_behaviour_witness :
    seedPhase (fun _ _ => true) (some (0, 0))
        (fun _ x => if x = 100 then some ⟨"P", 3, 4, [], none, none, none, none⟩ else none)
        50 [100, 200] [] 7 =
      Except.ok [seedRow ⟨"P", 3, 4, [], none, none, none, none⟩ true 7] :=
  ((c6_seeding_behaviour (fun _ _ => true) (some (0, 0))
    (fun _ x => if x = 100 then some ⟨"P", 3, 4, [], none, none, none, none⟩ else none)
    50 [100, 200] [] 7).2.2 (0, 0) ⟨"P", 3, 4, [], none, none, none, none⟩
    [50] 100 [200] rfl rfl rfl (by decide) (by decide)).1

/-- C7 (code bug): the Geometry Gate evaluation has no handling for missing
coordinates — `Point(lon, lat)` is built unguarded, so a NULL coordinate
raises, and in the just-in-time boundary-evaluation step of the driver that
exception is not caught: the run crashes instead of treating containment as
indeterminate.  In the expansion step the same raise is merely swallowed by
the generic per-node handler (the node is skipped).  Evaluated on concrete
degenerate inputs. -/
theorem c7_degenerate_coordinates_raise :
    gateEval (fun _ _ => true) none (some 0) = none ∧
    crawlStep ⟨fun _ _ => true, fun _ => Except.ok none⟩ 0
        ⟨[⟨"X", none, some 0, false, none, false, 1, 1⟩], [], 0⟩ =
      StepResult.crashed ∧
    expandNeighbors (fun _ _ => true) [] [⟨"N", none, some 0⟩] 5 =
      Except.error [] := by
  refine ⟨rfl, ?_, rfl⟩
  decide

/-- C8: `save_panorama_metadata_to_db` modifies only the `lat`, `lon` and
`updated_at` columns of rows whose id matches the fetched panorama (with ids
unique, a single row); every other row is untouched, no row is added or
removed, and none of the extracted detailed attributes (date, heading,
address, copyright, neighbors, ...) influences the store: two panoramas
agreeing on id, lat and lon produce identical stores regardless of their
other attributes.  (`metadata_populated` is set by a separate driver
update, `setMetaPopulated`.) -/
theorem c8_save_metadata_frame (db : List Row) (p q : Panorama) (now : Nat) :
    (∀ r ∈ db, r.id ≠ p.id → r ∈ save_panorama_metadata_to_db db p now) ∧
    (∀ r' ∈ save_panorama_metadata_to_db db p now,
      (r' ∈ db ∧ r'.id ≠ p.id) ∨
      (∃ r ∈ db, r.id = p.id ∧ r'.id = r.id ∧ r'.lat = some p.lat ∧
        r'.lon = some p.lon ∧ r'.updated_at = now ∧
        r'.metadata_populated = r.metadata_populated ∧
        r'.within_boundary = r.within_boundary ∧
        r'.neighbors_expanded = r.neighbors_expanded ∧
        r'.created_at = r.created_at)) ∧
    (p.id = q.id → p.lat = q.lat → p.lon = q.lon →
      save_panorama_metadata_to_db db p now = save_panorama_metadata_to_db db q now) ∧
    (save_panorama_metadata_to_db db p now).length = db.length := by
  refine ⟨?_, ?_, ?_, ?_⟩
  · intro r hr hne
    exact mem_updateRow_of_ne hr hne
  · intro r' hr'
    simp only [save_panorama_metadata_to_db] at hr'
    rcases mem_updateRow.mp hr' with ⟨r0, hr0, heq⟩
    by_cases h0 : r0.id = p.id
    · rw [if_pos h0] at heq
      subst heq
      exact Or.inr ⟨r0, hr0, h0, rfl, rfl, rfl, rfl, rfl, rfl, rfl, rfl⟩
    · rw [if_neg h0] at heq
      subst heq
      exact Or.inl ⟨hr0, h0⟩
  · intro hid hlat hlon
    simp only [save_panorama_metadata_to_db, updateRow]
    rw [hid, hlat, hlon]
  · simp only [save_panorama_metadata_to_db, updateRow, List.length_map]

/-- Witness for C8: two fetched panoramas with the same id and coordinates
but different date/heading/address/copyright attributes leave the store in
exactly the same state. -/
theorem c8_save_metadata_frame_witness :
    save_panorama_metadata_to_db
        [⟨"P", some 0, some 0, false, some true, false, 1, 1⟩]
        ⟨"P", 2, 3, [], some "2020-01", none, none, none⟩ 7 =
      save_panorama_metadata_to_db
        [⟨"P", some 0, some 0, false, some true, false, 1, 1⟩]
        ⟨"P", 2, 3, [], none, some 90, some "Yonge St", some "c"⟩ 7 :=
  (c8_save_metadata_frame
    [⟨"P", some 0, some 0, false, some true, false, 1, 1⟩]
    ⟨"P", 2, 3, [], some "2020-01", none, none, none⟩
    ⟨"P", 2, 3, [], none, some 90, some "Yonge St", some "c"⟩ 7).2.2.1 rfl rfl rfl

/-- C9: every row this program creates is born with `within_boundary`
already 0 or 1: rows of the post-iteration store whose id was not present
before have a non-NULL boundary flag; if no row of the store has a NULL
boundary flag then none has after an iteration (so the selector's
NULL branch and the just-in-time evaluation can only fire for rows that
pre-existed the program); and every row a successful seeding adds has its
boundary flag evaluated. -/
theorem c9_created_rows_boundary_known (env : Env) (now : Nat) (s s' : CrawlState)
    (hstep : crawlStep env now s = StepResult.next s') :
    (∀ r' ∈ s'.db, r'.id ∉ rowIds s.db → r'.within_boundary ≠ none) ∧
    ((∀ r ∈ s.db, r.within_boundary ≠ none) →
      ∀ r' ∈ s'.db, r'.within_boundary ≠ none) ∧
    (∀ (contains : Int → Int → Bool) (cp : Option (Int × Int))
        (find : Int × Int → Int → Option Panorama) (radius : Int) (extras : List Int)
        (db db' : List Row) (now2 : Nat),
      seedPhase contains cp find radius extras db now2 = Except.ok db' →
      ∀ r' ∈ db', r' ∈ db ∨ r'.within_boundary ≠ none) := by
  have hwo := crawlStep_withinOrigin hstep
  refine ⟨?_, ?_, ?_⟩
  · intro r' hr' hnot
    rcases hwo r' hr' with ⟨r, hrmem, hid, _⟩ | hne
    · exact absurd (hid ▸ mem_rowIds_of_mem hrmem) hnot
    · exact hne
  · intro hinv r' hr'
    rcases hwo r' hr' with ⟨r, hrmem, _, hwb⟩ | hne
    · rw [hwb]
      exact hinv r hrmem
    · exact hne
  · intro contains cp find radius extras db db' now2 hseed r' hr'
    rcases seedPhase_ok_cases hseed with rfl | ⟨p, rfl⟩
    · exact Or.inl hr'
    · unfold insertOrReplace at hr'
      rcases List.mem_append.mp hr' with hf | hs
      · exact Or.inl (List.mem_of_mem_filter hf)
      · rcases List.mem_singleton.mp hs with rfl
        exact Or.inr (by simp [seedRow])

/-- Witness for C9: one iteration over a store whose single row has its
boundary flag set keeps every boundary flag non-NULL. -/
theorem c9_created_rows_boundary_known_witness :
    (⟨"R", some 1, some 1, false, some true, false, 4, 4⟩ : Row).within_boundary ≠
      none :=
  (c9_created_rows_boundary_known ⟨fun _ _ => true, fun _ => Except.ok none⟩ 0
    ⟨[⟨"R", some 1, some 1, false, some true, false, 4, 4⟩], [], 0⟩
    ⟨[⟨"R", some 1, some 1, false, some true, false, 4, 4⟩], ["R"], 0⟩
    (by decide)).2.1 (by decide)
    ⟨"R", some 1, some 1, false, some true, false, 4, 4⟩ (by decide)

/-- Counterexample to C10 as stated: with total lookup collaborators an
uncounted skip iteration can insert new rows.  The by-id lookup returns a
panorama whose first neighbor `NEW` is fresh and whose second neighbor `BAD`
has a missing coordinate: the gate raise aborts the expansion after the
first `INSERT OR IGNORE`, the handler records the skip (and commits), and
the fresh row stays — `processed_count` is 0 before and after, yet a row id
absent before the iteration is present after it, contradicting "new rows are
inserted only during counted iterations". -/
theorem c10_counterexample_uncounted_insert :
    crawlStep ⟨fun _ _ => true, fun _ => Except.ok (some ⟨"P", 0, 0,
        [⟨"NEW", some 1, some 1⟩, ⟨"BAD", none, none⟩], none, none, none, none⟩)⟩ 3
      ⟨[⟨"R", some 0, some 0, true, some true, false, 4, 4⟩], [], 0⟩ =
      StepResult.next ⟨[⟨"R", some 0, some 0, true, some true, false, 4, 4⟩,
        ⟨"NEW", some 1, some 1, false, some true, false, 3, 3⟩], ["R"], 0⟩ ∧
    hasId [(⟨"R", some 0, some 0, true, some true, false, 4, 4⟩ : Row)] "NEW" =
      false := by
  decide

/-- C10 (amended): every continuing iteration either increments
`processed_count` (bounded by the loop guard, skip set untouched) or leaves
`processed_count` unchanged while adding the selected id — an id present in
the store and not yet skipped — to the run's skip set; in the latter case
the set of row ids never shrinks but, unlike the original claim, may grow
(a mid-expansion raise keeps the neighbors inserted before it).  When the
lookup collaborator's neighbor records always carry coordinates — so no
expansion can raise — uncounted iterations insert nothing and the ITERATING
loop terminates: some finite fuel completes it. -/
theorem c10_loop_behaviour (env : Env) (maxNew clock : Nat) (s : CrawlState) :
    (∀ (now : Nat) (t t' : CrawlState), crawlStep env now t = StepResult.next t' →
      (t'.processed = t.processed + 1 ∧ t'.skip = t.skip) ∨
        (t'.processed = t.processed ∧ (∀ j ∈ rowIds t.db, j ∈ rowIds t'.db) ∧
          ∃ row, frontierSelect t.db t.skip = some row ∧ row.id ∈ rowIds t.db ∧
            row.id ∉ t.skip ∧ t'.skip = t.skip ++ [row.id])) ∧
    (neighborCoordsTotal env →
      ∃ fuel, (fueledLoop env maxNew fuel clock s).isSome = true) := by
  constructor
  · intro now t t' h
    rcases crawlStep_next h with ⟨db3, rfl⟩ | ⟨row, db', hsel, rfl, hids⟩
    · exact Or.inl ⟨rfl, rfl⟩
    · rcases frontierSelect_mem hsel with ⟨hmem, hskip, _⟩
      refine Or.inr ⟨rfl, hids, row, hsel, mem_rowIds_of_mem hmem, hskip, ?_⟩
      unfold insertSkip
      rw [if_neg hskip]
  · intro hsafe
    exact fueledLoop_terminates env maxNew hsafe (maxNew - s.processed)
      (unskippedCount s) clock s le_rfl le_rfl

/-- Witness for the amended C10: with a lookup that always raises the side
condition holds vacuously, and the loop on a one-row store completes within
some finite fuel. -/
theorem c10_loop_behaviour_witness :
    ∃ fuel, (fueledLoop ⟨fun _ _ => true, fun _ => Except.error ()⟩ 1 fuel 0
      ⟨[⟨"R", some 1, some 1, false, some true, false, 4, 4⟩], [], 0⟩).isSome = true :=
  (c10_loop_behaviour ⟨fun _ _ => true, fun _ => Except.error ()⟩ 1 0
    ⟨[⟨"R", some 1, some 1, false, some true, false, 4, 4⟩], [], 0⟩).2
    (fun _ _ h => Except.noConfusion h)

end Crawler
